import Mathlib

/-!
Verification of the markdown-to-HTML conversion scripts of the repository
`book_only_fools_believe_in_stock` (files `convert_html_only.py`,
`convert_to_pdf.py`, `convert_to_pdf_html.py`).

Texts are modelled as `List Char`.  Python string primitives used by the
scripts (`str.split`, `str.replace`, `str.strip`, `str.format`, `re.sub` with
the concrete patterns appearing in the code, `os.path.basename`, `int`) are
embedded as executable Lean functions, and the script-level routines
(`simple_markdown_to_html`, `convert_md_file_to_html`, the sort key of `main`,
`create_combined_html`) are built from them following the Python source.
-/

namespace Book

/-- Text: Python strings, modelled as lists of characters. -/
abbrev Txt := List Char

/-- Shorthand for turning a Lean string literal into a `Txt`. -/
def txt (s : String) : Txt := s.toList

/-- Python `str.isspace` restricted to the ASCII whitespace characters
(the only ones appearing in this development). -/
def pyIsSpace (c : Char) : Bool :=
  c == ' ' || c == '\t' || c == '\n' || c == '\r' || c == '\x0b' || c == '\x0c'

/-- Left part of Python `str.strip`. -/
def pyLStrip (s : Txt) : Txt := s.dropWhile pyIsSpace

/-- Right part of Python `str.strip`. -/
def pyRStrip (s : Txt) : Txt := (s.reverse.dropWhile pyIsSpace).reverse

/-- Python `str.strip()` (ASCII whitespace). -/
def pyStrip (s : Txt) : Txt := pyRStrip (pyLStrip s)

/-- Split a text at the first (leftmost) occurrence of the nonempty pattern
`d`: `splitAtFirst d s = some (b, a)` means `s = b ++ d ++ a` and no
occurrence of `d` starts before position `b.length`.  Returns `none` when `d`
does not occur in `s`.  This is the primitive under Python `str.split`,
`str.replace`, `str.find` and leftmost regex matching. -/
def splitAtFirst (d : Txt) : Txt → Option (Txt × Txt)
  | [] => none
  | c :: cs =>
    if d.isPrefixOf (c :: cs) then some ([], (c :: cs).drop d.length)
    else
      match splitAtFirst d cs with
      | some pr => some (c :: pr.1, pr.2)
      | none => none

theorem splitAtFirst_some {d s b a : Txt} (h : splitAtFirst d s = some (b, a)) :
    s = b ++ d ++ a := by
  induction s generalizing b a with
  | nil => simp [splitAtFirst] at h
  | cons c cs ih =>
    rw [splitAtFirst] at h
    by_cases hp : d.isPrefixOf (c :: cs)
    · rw [if_pos hp] at h
      have hba : b = [] ∧ (c :: cs).drop d.length = a := by
        simpa using h
      obtain ⟨rfl, hdrop⟩ := hba
      have hpre : d <+: c :: cs := List.isPrefixOf_iff_prefix.mp hp
      have := List.prefix_iff_eq_append.mp hpre
      rw [hdrop] at this
      simpa using this.symm
    · rw [if_neg hp] at h
      cases hsp : splitAtFirst d cs with
      | none => rw [hsp] at h; simp at h
      | some pr =>
        rw [hsp] at h
        have hba : c :: pr.1 = b ∧ pr.2 = a := by simpa using h
        obtain ⟨rfl, rfl⟩ := hba
        have := ih (b := pr.1) (a := pr.2) (by rw [hsp])
        simp [this]

theorem splitAtFirst_some_length {d s b a : Txt} (hd : d ≠ [])
    (h : splitAtFirst d s = some (b, a)) : a.length < s.length := by
  have := splitAtFirst_some h
  subst this
  have : 0 < d.length := List.length_pos.mpr hd
  simp only [List.length_append]
  omega

theorem splitAtFirst_none_iff {d : Txt} (hd : d ≠ []) :
    ∀ {s : Txt}, splitAtFirst d s = none ↔ ¬ d <:+: s := by
  intro s
  induction s with
  | nil =>
    constructor
    · intro _ hinf
      exact hd (List.infix_nil.mp hinf)
    · intro _
      rfl
  | cons c cs ih =>
    rw [splitAtFirst]
    by_cases hp : d.isPrefixOf (c :: cs)
    · rw [if_pos hp]
      constructor
      · intro h
        exact absurd h (by simp)
      · intro hn
        exact (hn (List.isPrefixOf_iff_prefix.mp hp).isInfix).elim
    · rw [if_neg hp]
      have hnp : ¬ d <+: c :: cs := fun hc => hp (List.isPrefixOf_iff_prefix.mpr hc)
      cases hsp : splitAtFirst d cs with
      | none =>
        constructor
        · intro _ hinf
          rcases List.infix_cons_iff.mp hinf with h | h
          · exact hnp h
          · exact (ih.mp hsp) h
        · intro _
          rfl
      | some pr =>
        have h2 : d <:+: cs := by
          by_contra hc
          have := ih.mpr hc
          rw [this] at hsp
          exact Option.noConfusion hsp
        constructor
        · intro h
          exact absurd h (by simp)
        · intro hn
          exact (hn (List.infix_cons_iff.mpr (Or.inr h2))).elim

/-- Minimality of `splitAtFirst`: no occurrence of the pattern starts strictly
before the returned prefix ends. -/
theorem splitAtFirst_min {d s b a : Txt} (h : splitAtFirst d s = some (b, a)) :
    ∀ b₁ b₂ : Txt, b = b₁ ++ b₂ → b₂ ≠ [] → ¬ d <+: (b₂ ++ d ++ a) := by
  induction s generalizing b a with
  | nil => simp [splitAtFirst] at h
  | cons c cs ih =>
    rw [splitAtFirst] at h
    by_cases hp : d.isPrefixOf (c :: cs)
    · rw [if_pos hp] at h
      have hb : b = [] := by
        have : ([] : Txt) = b ∧ (c :: cs).drop d.length = a := by simpa using h
        exact this.1.symm
      intro b₁ b₂ hsplit hne
      exfalso
      apply hne
      rw [hb] at hsplit
      exact (List.append_eq_nil.mp hsplit.symm).2
    · rw [if_neg hp] at h
      have hnp : ¬ d <+: c :: cs := fun hc => hp (List.isPrefixOf_iff_prefix.mpr hc)
      cases hsp : splitAtFirst d cs with
      | none => rw [hsp] at h; simp at h
      | some pr =>
        rw [hsp] at h
        have hba : c :: pr.1 = b ∧ pr.2 = a := by simpa using h
        obtain ⟨hb, rfl⟩ := hba
        subst hb
        intro b₁ b₂ hsplit hne
        cases b₁ with
        | nil =>
          simp only [List.nil_append] at hsplit
          subst hsplit
          have hdecomp := splitAtFirst_some hsp
          intro hpre
          apply hnp
          have hs : c :: cs = (c :: pr.1) ++ d ++ pr.2 := by
            simp [hdecomp]
          rw [hs]
          simpa using hpre
        | cons x xs =>
          simp only [List.cons_append, List.cons.injEq] at hsplit
          obtain ⟨rfl, hxs⟩ := hsplit
          exact ih hsp xs b₂ hxs hne

/-- If the head character of the (nonempty) pattern does not occur in `p`,
the first occurrence of the pattern in `p ++ d ++ q` is the explicit one. -/
theorem splitAtFirst_append {dc : Char} {dt p q : Txt} (hp : dc ∉ p) :
    splitAtFirst (dc :: dt) (p ++ (dc :: dt) ++ q) = some (p, q) := by
  induction p with
  | nil =>
    simp only [List.nil_append]
    have hpre : (dc :: dt) <+: (dc :: dt) ++ q := List.prefix_append _ _
    have hshape : (dc :: dt) ++ q = dc :: (dt ++ q) := by simp
    rw [hshape, splitAtFirst, if_pos (List.isPrefixOf_iff_prefix.mpr (hshape ▸ hpre))]
    rw [← hshape, List.drop_left]
  | cons x xs ih =>
    have hxc : dc ≠ x := fun hc => hp (by simp [hc])
    have hxs : dc ∉ xs := fun hc => hp (by simp [hc])
    have heq : (x :: xs) ++ (dc :: dt) ++ q = x :: (xs ++ (dc :: dt) ++ q) := by
      simp
    rw [heq, splitAtFirst]
    have hnpre : ¬ (dc :: dt).isPrefixOf (x :: (xs ++ (dc :: dt) ++ q)) := by
      intro hc
      obtain ⟨t, ht⟩ := List.isPrefixOf_iff_prefix.mp hc
      simp only [List.cons_append, List.cons.injEq] at ht
      exact hxc ht.1
    rw [if_neg hnpre, ih hxs]

/-- Fueled worker for `splitOnList`; the fuel bounds the number of splits. -/
def splitOnListF (d : Txt) : Nat → Txt → List Txt
  | 0, s => [s]
  | fuel+1, s =>
    match splitAtFirst d s with
    | none => [s]
    | some pr => pr.1 :: splitOnListF d fuel pr.2

/-- Python `str.split(sep)` for a nonempty separator `d`: split at every
(non-overlapping, leftmost-first) occurrence of `d`. -/
def splitOnList (d s : Txt) : List Txt := splitOnListF d s.length s

theorem splitOnListF_congr {d : Txt} (hd : d ≠ []) :
    ∀ {m n : Nat} {s : Txt}, s.length ≤ m → s.length ≤ n →
      splitOnListF d m s = splitOnListF d n s := by
  intro m
  induction m with
  | zero =>
    intro n s hm hn
    have hs : s = [] := List.eq_nil_of_length_eq_zero (Nat.le_zero.mp hm)
    subst hs
    cases n with
    | zero => rfl
    | succ n => simp [splitOnListF, splitAtFirst]
  | succ m ih =>
    intro n s hm hn
    cases n with
    | zero =>
      have hs : s = [] := List.eq_nil_of_length_eq_zero (Nat.le_zero.mp hn)
      subst hs
      simp [splitOnListF, splitAtFirst]
    | succ n =>
      cases hsp : splitAtFirst d s with
      | none => simp [splitOnListF, hsp]
      | some pr =>
        obtain ⟨b, a⟩ := pr
        have hlt : a.length < s.length := splitAtFirst_some_length hd hsp
        have h1 : a.length ≤ m := by omega
        have h2 : a.length ≤ n := by omega
        simp only [splitOnListF, hsp]
        rw [ih h1 h2]

theorem splitOnList_of_none {d s : Txt} (h : splitAtFirst d s = none) :
    splitOnList d s = [s] := by
  unfold splitOnList
  cases s.length with
  | zero => rfl
  | succ n => simp [splitOnListF, h]

theorem splitOnList_of_some {d s b a : Txt} (hd : d ≠ [])
    (h : splitAtFirst d s = some (b, a)) :
    splitOnList d s = b :: splitOnList d a := by
  have hlt : a.length < s.length := splitAtFirst_some_length hd h
  unfold splitOnList
  cases hl : s.length with
  | zero =>
    have hs : s = [] := List.eq_nil_of_length_eq_zero hl
    subst hs
    simp [splitAtFirst] at h
  | succ n =>
    simp only [splitOnListF, h]
    congr 1
    exact splitOnListF_congr hd (by omega) le_rfl

theorem splitOnList_ne_nil {d s : Txt} : splitOnList d s ≠ [] := by
  unfold splitOnList
  cases s.length with
  | zero => simp [splitOnListF]
  | succ n =>
    simp only [splitOnListF]
    cases splitAtFirst d s <;> simp

theorem intercalate_cons_of_ne_nil {d x : Txt} {l : List Txt} (h : l ≠ []) :
    List.intercalate d (x :: l) = x ++ d ++ List.intercalate d l := by
  cases l with
  | nil => exact absurd rfl h
  | cons y ys =>
    simp [List.intercalate, List.intersperse]

theorem intercalate_singleton' (d x : Txt) :
    List.intercalate d [x] = x := by
  simp [List.intercalate, List.intersperse]

theorem intercalate_splitOnList {d : Txt} (hd : d ≠ []) (s : Txt) :
    List.intercalate d (splitOnList d s) = s := by
  cases hsp : splitAtFirst d s with
  | none => rw [splitOnList_of_none hsp, intercalate_singleton']
  | some pr =>
    obtain ⟨b, a⟩ := pr
    have hlt : a.length < s.length := splitAtFirst_some_length hd hsp
    have hrec : List.intercalate d (splitOnList d a) = a :=
      intercalate_splitOnList hd a
    rw [splitOnList_of_some hd hsp,
        intercalate_cons_of_ne_nil splitOnList_ne_nil, hrec]
    exact (splitAtFirst_some hsp).symm
termination_by s.length

/-- Fueled worker for `pyReplace`. -/
def pyReplaceF (d r : Txt) : Nat → Txt → Txt
  | 0, s => s
  | fuel+1, s =>
    match splitAtFirst d s with
    | none => s
    | some pr => pr.1 ++ r ++ pyReplaceF d r fuel pr.2

/-- Python `str.replace(d, r)` for a nonempty pattern `d`: replace every
non-overlapping occurrence, scanning left to right. -/
def pyReplace (d r s : Txt) : Txt := pyReplaceF d r s.length s

theorem pyReplaceF_congr {d r : Txt} (hd : d ≠ []) :
    ∀ {m n : Nat} {s : Txt}, s.length ≤ m → s.length ≤ n →
      pyReplaceF d r m s = pyReplaceF d r n s := by
  intro m
  induction m with
  | zero =>
    intro n s hm hn
    have hs : s = [] := List.eq_nil_of_length_eq_zero (Nat.le_zero.mp hm)
    subst hs
    cases n with
    | zero => rfl
    | succ n => simp [pyReplaceF, splitAtFirst]
  | succ m ih =>
    intro n s hm hn
    cases n with
    | zero =>
      have hs : s = [] := List.eq_nil_of_length_eq_zero (Nat.le_zero.mp hn)
      subst hs
      simp [pyReplaceF, splitAtFirst]
    | succ n =>
      cases hsp : splitAtFirst d s with
      | none => simp [pyReplaceF, hsp]
      | some pr =>
        obtain ⟨b, a⟩ := pr
        have hlt : a.length < s.length := splitAtFirst_some_length hd hsp
        have h1 : a.length ≤ m := by omega
        have h2 : a.length ≤ n := by omega
        simp only [pyReplaceF, hsp]
        rw [ih h1 h2]

theorem pyReplace_of_none {d r s : Txt} (h : splitAtFirst d s = none) :
    pyReplace d r s = s := by
  unfold pyReplace
  cases s.length with
  | zero => rfl
  | succ n => simp [pyReplaceF, h]

theorem pyReplace_of_some {d r s b a : Txt} (hd : d ≠ [])
    (h : splitAtFirst d s = some (b, a)) :
    pyReplace d r s = b ++ r ++ pyReplace d r a := by
  have hlt : a.length < s.length := splitAtFirst_some_length hd h
  unfold pyReplace
  cases hl : s.length with
  | zero =>
    have hs : s = [] := List.eq_nil_of_length_eq_zero hl
    subst hs
    simp [splitAtFirst] at h
  | succ n =>
    simp only [pyReplaceF, h]
    congr 1
    have h1 : a.length ≤ n := by omega
    exact pyReplaceF_congr hd h1 le_rfl

/-- A one-character pattern is an infix exactly when the character occurs. -/
theorem singleton_infix_iff_mem {c : Char} {s : Txt} : [c] <:+: s ↔ c ∈ s := by
  constructor
  · rintro ⟨x, y, hxy⟩
    rw [← hxy]
    simp
  · intro hm
    obtain ⟨x, y, hxy⟩ := List.append_of_mem hm
    exact ⟨x, y, by simp [hxy]⟩

/-- Apply a transformation to every newline-separated line of a text and glue
the lines back together: the effect of `re.sub` with a `^...$`-anchored
pattern under `re.MULTILINE`, for replacements that stay within the line. -/
def mapLines (f : Txt → Txt) (s : Txt) : Txt :=
  List.intercalate ['\n'] ((splitOnList ['\n'] s).map f)

theorem splitOnList_eq_self_of_not_mem {s : Txt} (h : '\n' ∉ s) :
    splitOnList ['\n'] s = [s] :=
  splitOnList_of_none ((splitAtFirst_none_iff (by simp)).mpr
    (fun hc => h (singleton_infix_iff_mem.mp hc)))

/-- Splitting an intercalation of newline-free lines recovers the lines. -/
theorem splitOnList_intercalate {lines : List Txt} (hne : lines ≠ [])
    (hnl : ∀ l ∈ lines, '\n' ∉ l) :
    splitOnList ['\n'] (List.intercalate ['\n'] lines) = lines := by
  induction lines with
  | nil => exact absurd rfl hne
  | cons l rest ih =>
    cases rest with
    | nil =>
      rw [intercalate_singleton']
      exact splitOnList_eq_self_of_not_mem (hnl l (by simp))
    | cons l2 rest2 =>
      rw [intercalate_cons_of_ne_nil (by simp)]
      have hsp : splitAtFirst ['\n'] (l ++ ['\n'] ++ List.intercalate ['\n'] (l2 :: rest2))
          = some (l, List.intercalate ['\n'] (l2 :: rest2)) :=
        splitAtFirst_append (hnl l (by simp))
      rw [splitOnList_of_some (by simp) hsp]
      congr 1
      exact ih (by simp) (fun x hx => hnl x (by simp [hx]))

theorem mapLines_intercalate {f : Txt → Txt} {lines : List Txt} (hne : lines ≠ [])
    (hnl : ∀ l ∈ lines, '\n' ∉ l) :
    mapLines f (List.intercalate ['\n'] lines) = List.intercalate ['\n'] (lines.map f) := by
  unfold mapLines
  rw [splitOnList_intercalate hne hnl]

/-- One attempted match of a delimited span at the current position:
`delimMatch o c nl s` succeeds when `s` starts with the opening delimiter `o`
and the closing delimiter `c` occurs afterwards; the span content is
everything up to the first later occurrence of `c` (non-greedy `(.*?)`), and
`nl = false` rejects content containing a newline (patterns compiled without
`re.DOTALL`, where `.` does not match a newline). -/
def delimMatch (dOpen dClose : Txt) (allowNl : Bool) (s : Txt) : Option (Txt × Txt) :=
  if dOpen.isPrefixOf s then
    match splitAtFirst dClose (s.drop dOpen.length) with
    | some pr => if allowNl || !pr.1.contains '\n' then some pr else none
    | none => none
  else none

theorem delimMatch_some {o c : Txt} {nl : Bool} {s content rest : Txt}
    (h : delimMatch o c nl s = some (content, rest)) :
    s = o ++ content ++ c ++ rest := by
  unfold delimMatch at h
  split at h
  · rename_i hp
    split at h
    · rename_i pr hsp
      split at h
      · have hpr : pr = (content, rest) := by simpa using h
        subst hpr
        have hpre : o <+: s := List.isPrefixOf_iff_prefix.mp hp
        have hs : o ++ s.drop o.length = s := List.prefix_iff_eq_append.mp hpre
        have hdrop : s.drop o.length = content ++ c ++ rest := splitAtFirst_some hsp
        rw [← hs, hdrop]
        simp
      · exact absurd h (by simp)
    · exact absurd h (by simp)
  · exact absurd h (by simp)

theorem delimMatch_length {o c : Txt} (ho : o ≠ []) (hc : c ≠ [])
    {nl : Bool} {s content rest : Txt}
    (h : delimMatch o c nl s = some (content, rest)) : rest.length < s.length := by
  have hs := delimMatch_some h
  subst hs
  have h1 : 0 < o.length := List.length_pos.mpr ho
  have h2 : 0 < c.length := List.length_pos.mpr hc
  simp only [List.length_append]
  omega

/-- Fueled worker for `subDelim`. -/
def subDelimF (dOpen dClose op cl : Txt) (allowNl : Bool) : Nat → Txt → Txt
  | 0, s => s
  | fuel+1, s =>
    match s with
    | [] => []
    | ch :: cs =>
      match delimMatch dOpen dClose allowNl (ch :: cs) with
      | some pr => op ++ pr.1 ++ cl ++ subDelimF dOpen dClose op cl allowNl fuel pr.2
      | none => ch :: subDelimF dOpen dClose op cl allowNl fuel cs

/-- Python `re.sub(dOpen + '(.*?)' + dClose, op + r'\1' + cl, s)` for literal
delimiter patterns: scan left to right; at each position try to match an
opening delimiter followed (non-greedily) by content and the closing
delimiter; on success replace the whole span by `op ++ content ++ cl` and
resume after it, otherwise keep one character and move on.  `allowNl`
distinguishes `re.DOTALL` patterns. -/
def subDelim (dOpen dClose op cl : Txt) (allowNl : Bool) (s : Txt) : Txt :=
  subDelimF dOpen dClose op cl allowNl s.length s

theorem subDelimF_congr {o c op cl : Txt} {nl : Bool} (ho : o ≠ []) (hc : c ≠ []) :
    ∀ {m n : Nat} {s : Txt}, s.length ≤ m → s.length ≤ n →
      subDelimF o c op cl nl m s = subDelimF o c op cl nl n s := by
  intro m
  induction m with
  | zero =>
    intro n s hm hn
    have hs : s = [] := List.eq_nil_of_length_eq_zero (Nat.le_zero.mp hm)
    subst hs
    cases n with
    | zero => rfl
    | succ n => simp [subDelimF]
  | succ m ih =>
    intro n s hm hn
    cases n with
    | zero =>
      have hs : s = [] := List.eq_nil_of_length_eq_zero (Nat.le_zero.mp hn)
      subst hs
      simp [subDelimF]
    | succ n =>
      cases s with
      | nil => simp [subDelimF]
      | cons ch cs =>
        cases hdm : delimMatch o c nl (ch :: cs) with
        | none =>
          simp only [subDelimF, hdm]
          have h1 : cs.length ≤ m := by simp at hm; omega
          have h2 : cs.length ≤ n := by simp at hn; omega
          rw [ih h1 h2]
        | some pr =>
          obtain ⟨content, rest⟩ := pr
          have hlt : rest.length < (ch :: cs).length := delimMatch_length ho hc hdm
          simp only [subDelimF, hdm]
          have h1 : rest.length ≤ m := by simp at hm hlt ⊢; omega
          have h2 : rest.length ≤ n := by simp at hn hlt ⊢; omega
          rw [ih h1 h2]

theorem subDelim_nil {o c op cl : Txt} {nl : Bool} :
    subDelim o c op cl nl [] = [] := rfl

theorem subDelim_match {o c op cl : Txt} {nl : Bool} {ch : Char} {cs content rest : Txt}
    (ho : o ≠ []) (hc : c ≠ [])
    (h : delimMatch o c nl (ch :: cs) = some (content, rest)) :
    subDelim o c op cl nl (ch :: cs) = op ++ content ++ cl ++ subDelim o c op cl nl rest := by
  have hlt : rest.length < (ch :: cs).length := delimMatch_length ho hc h
  unfold subDelim
  have hlen : (ch :: cs).length = cs.length + 1 := by simp
  rw [hlen]
  simp only [subDelimF, h]
  congr 1
  exact subDelimF_congr ho hc (by simp at hlt ⊢; omega) le_rfl

theorem subDelim_nomatch {o c op cl : Txt} {nl : Bool} {ch : Char} {cs : Txt}
    (h : delimMatch o c nl (ch :: cs) = none) :
    subDelim o c op cl nl (ch :: cs) = ch :: subDelim o c op cl nl cs := by
  unfold subDelim
  have hlen : (ch :: cs).length = cs.length + 1 := by simp
  rw [hlen]
  simp only [subDelimF, h]

/-- The opening tag of the replacement of the level-`k` header rule. -/
def hOpenTag : Nat → Txt
  | 1 => txt "<h1>"
  | 2 => txt "<h2>"
  | 3 => txt "<h3>"
  | 4 => txt "<h4>"
  | _ => []

/-- The closing tag of the replacement of the level-`k` header rule. -/
def hCloseTag : Nat → Txt
  | 1 => txt "</h1>"
  | 2 => txt "</h2>"
  | 3 => txt "</h3>"
  | 4 => txt "</h4>"
  | _ => []

/-- The heading substitution of level `k`, per line: the effect of
`re.sub(r'^#[k] (.*?)$', r'<hk>\1</hk>', html, flags=re.MULTILINE)` on one
line (the pattern is anchored, `.` does not match a newline, and `(.*?)$`
captures the whole rest of the line). -/
def headerLine (k : Nat) (line : Txt) : Txt :=
  if (List.replicate k '#' ++ [' ']).isPrefixOf line then
    hOpenTag k ++ line.drop (k + 1) ++ hCloseTag k
  else line

/-- One header pass of `simple_markdown_to_html`. -/
def headerSub (k : Nat) (s : Txt) : Txt := mapLines (headerLine k) s

/-- `re.sub(r'\*\*(.*?)\*\*', r'<strong>\1</strong>', html)`. -/
def boldSub (s : Txt) : Txt :=
  subDelim (txt "**") (txt "**") (txt "<strong>") (txt "</strong>") false s

/-- `re.sub(r'\*(.*?)\*', r'<em>\1</em>', html)`. -/
def italicSub (s : Txt) : Txt :=
  subDelim (txt "*") (txt "*") (txt "<em>") (txt "</em>") false s

/-- `re.sub(r'(three backticks)(.*?)(three backticks)', r'<pre><code>\1</code></pre>', html, flags=re.DOTALL)`. -/
def codeBlockSub (s : Txt) : Txt :=
  subDelim (txt "```") (txt "```") (txt "<pre><code>") (txt "</code></pre>") true s

/-- `re.sub(r'(backtick)(.*?)(backtick)', r'<code>\1</code>', html)`. -/
def inlineCodeSub (s : Txt) : Txt :=
  subDelim (txt "`") (txt "`") (txt "<code>") (txt "</code>") false s

/-- The blockquote substitution, per line:
`re.sub(r'^> (.*?)$', r'<blockquote>\1</blockquote>', html, flags=re.MULTILINE)`. -/
def blockquoteLine (line : Txt) : Txt :=
  if (txt "> ").isPrefixOf line then
    txt "<blockquote>" ++ line.drop 2 ++ txt "</blockquote>"
  else line

/-- The blockquote pass of `simple_markdown_to_html`. -/
def blockquoteSub (s : Txt) : Txt := mapLines blockquoteLine s

/-- The body of the paragraph loop of `simple_markdown_to_html`: strip the
paragraph, drop it if empty, keep it unwrapped when it already starts with a
recognized block element, otherwise wrap it in a `<p>` element. -/
def paragraphPiece (para : Txt) : Option Txt :=
  if pyStrip para = [] then none
  else if (txt "<h").isPrefixOf (pyStrip para) || (txt "<block").isPrefixOf (pyStrip para) ||
      (txt "<pre").isPrefixOf (pyStrip para) || (txt "<ul").isPrefixOf (pyStrip para) ||
      (txt "<ol").isPrefixOf (pyStrip para) then some (pyStrip para)
  else some (txt "<p>" ++ pyStrip para ++ txt "</p>")

/-- The paragraph stage of `simple_markdown_to_html`: split on blank lines,
process each paragraph, join the surviving paragraphs with single newlines. -/
def paragraphStage (s : Txt) : Txt :=
  List.intercalate ['\n'] ((splitOnList (txt "\n\n") s).filterMap paragraphPiece)

/-- `simple_markdown_to_html` from `convert_html_only.py`: the ordered
substitution pipeline (headers h1–h4, bold, italic, fenced code, inline code,
blockquotes) followed by the paragraph stage. -/
def simple_markdown_to_html (s : Txt) : Txt :=
  paragraphStage (blockquoteSub (inlineCodeSub (codeBlockSub (italicSub (boldSub
    (headerSub 4 (headerSub 3 (headerSub 2 (headerSub 1 s)))))))))

/-- Decimal digit accumulation; `none` on a non-digit character. -/
def digitsVal (acc : Nat) : Txt → Option Nat
  | [] => some acc
  | ch :: cs =>
    if ch.isDigit then digitsVal (acc * 10 + (ch.toNat - '0'.toNat)) cs else none

/-- Python `int(s)` on ASCII decimal literals: optional surrounding
whitespace, an optional sign, then one or more decimal digits; anything else
raises `ValueError` (`none` here).  PEP 515 underscore separators and
non-ASCII digits are not modelled; no input in this development contains
them. -/
def pyInt (s : Txt) : Option Int :=
  match pyStrip s with
  | [] => none
  | '+' :: ds => if ds = [] then none else (digitsVal 0 ds).map Int.ofNat
  | '-' :: ds => if ds = [] then none else (digitsVal 0 ds).map (fun n => -(n : Int))
  | ds => (digitsVal 0 ds).map Int.ofNat

/-- Python `os.path.basename` on POSIX paths: everything after the last
slash. -/
def pyBasename (s : Txt) : Txt := (splitOnList ['/'] s).getLastD []

/-- Keyword-argument lookup for `str.format`. -/
def lookupKw (k : Txt) : List (Txt × Txt) → Option Txt
  | [] => none
  | (a, v) :: r => if a = k then some v else lookupKw k r

/-- CPython `parse_field` scanning of a replacement field: the field name
runs until a top-level `:` or `!`; square-bracketed index text is skipped
verbatim; an opening brace inside the field name is a `ValueError`
(`none`). -/
def scanFieldName (inBracket : Bool) (acc : Txt) : Txt → Option (Txt × Txt)
  | [] => some (acc.reverse, [])
  | ch :: cs =>
    if inBracket then scanFieldName (ch != ']') (ch :: acc) cs
    else if ch = '\x7b' then none
    else if ch = ':' || ch = '!' then some (acc.reverse, ch :: cs)
    else if ch = '[' then scanFieldName true (ch :: acc) cs
    else scanFieldName false (ch :: acc) cs

/-- Evaluate one replacement field of `str.format` against keyword arguments.
`none` models every raising outcome: a brace inside the field name
(ValueError), attribute or index access on a value, an empty or numeric field
name (positional arguments — none are ever passed by these scripts), a
missing keyword (KeyError), a conversion or a nonempty format spec (never
present on the fields the scripts' templates reach before raising). -/
def formatField (field : Txt) (kwargs : List (Txt × Txt)) : Option Txt :=
  match scanFieldName false [] field with
  | none => none
  | some (name, rem) =>
    if name.any (fun ch => ch == '.' || ch == '[') then none
    else if name = [] || name.all Char.isDigit then none
    else
      match lookupKw name kwargs with
      | none => none
      | some v =>
        match rem with
        | [] => some v
        | ':' :: spec => if spec = [] then some v else none
        | _ => none

/-- Parser state for `pyFormat`: scanning literal text, or inside a
replacement field at the given nesting depth with the accumulated (reversed)
field text. -/
inductive FmtState : Type
  | lit : FmtState
  | field (depth : Nat) (acc : Txt) : FmtState

/-- CPython's `do_markup` loop for `str.format`: literal text is copied
(with `\x7b\x7b` and `\x7d\x7d` as escaped braces); `\x7b` opens a
replacement field, scanned to its matching `\x7d` (brace depth counted);
a lone `\x7d` in literal text is a ValueError; an unterminated field is a
ValueError. -/
def doMarkup (kwargs : List (Txt × Txt)) : FmtState → Txt → Option Txt
  | .lit, [] => some []
  | .lit, '\x7b' :: '\x7b' :: cs => (doMarkup kwargs .lit cs).map (fun t => '\x7b' :: t)
  | .lit, '\x7d' :: '\x7d' :: cs => (doMarkup kwargs .lit cs).map (fun t => '\x7d' :: t)
  | .lit, '\x7b' :: cs => doMarkup kwargs (.field 0 []) cs
  | .lit, '\x7d' :: _ => none
  | .lit, ch :: cs => (doMarkup kwargs .lit cs).map (fun t => ch :: t)
  | .field _ _, [] => none
  | .field depth acc, ch :: cs =>
    if ch = '\x7d' then
      if depth = 0 then
        match formatField acc.reverse kwargs with
        | none => none
        | some v => (doMarkup kwargs .lit cs).map (fun t => v ++ t)
      else doMarkup kwargs (.field (depth - 1) (ch :: acc)) cs
    else if ch = '\x7b' then doMarkup kwargs (.field (depth + 1) (ch :: acc)) cs
    else doMarkup kwargs (.field depth (ch :: acc)) cs

/-- Python `template.format(**kwargs)`; `none` models a raised exception. -/
def pyFormat (tmpl : Txt) (kwargs : List (Txt × Txt)) : Option Txt :=
  doMarkup kwargs .lit tmpl
/-- The HTML template string returned by create_html_template in convert_html_only.py. -/
def create_html_template : List Char :=
  String.toList "<!DOCTYPE html>\n<html lang=\"zh-CN\">\n<head>\n    <meta charset=\"UTF-8\">\n    <meta name=\"viewport\" content=\"width=device-width, initial-scale=1.0\">\n    <title>\x7btitle\x7d</title>\n    <style>\n        @media print \x7b\n            @page \x7b\n                size: A4;\n                margin: 2cm 1.5cm;\n            \x7d\n\n            body \x7b\n                font-size: 11pt;\n                line-height: 1.6;\n            \x7d\n\n            h1 \x7b\n                page-break-before: always;\n                font-size: 16pt;\n            \x7d\n\n            h1:first-of-type \x7b\n                page-break-before: auto;\n            \x7d\n\n            h2 \x7b\n                font-size: 14pt;\n            \x7d\n\n            h3 \x7b\n                font-size: 12pt;\n            \x7d\n\n            p \x7b\n                text-indent: 2em;\n                orphans: 2;\n                widows: 2;\n            \x7d\n        \x7d\n\n        body \x7b\n            font-family: \"Times New Roman\", \"SimSun\", \"Microsoft YaHei\", \"WenQuanYi Micro Hei\", serif;\n            font-size: 12pt;\n            line-height: 1.8;\n            color: #333;\n            margin: 0;\n            padding: 20px;\n            max-width: 800px;\n            margin: 0 auto;\n            text-align: justify;\n        \x7d\n\n        h1, h2, h3, h4, h5, h6 \x7b\n            font-family: \"Times New Roman\", \"SimSun\", \"Microsoft YaHei\", serif;\n            color: #2c3e50;\n            margin-top: 2em;\n            margin-bottom: 1em;\n            font-weight: bold;\n            page-break-after: avoid;\n        \x7d\n\n        h1 \x7b\n            font-size: 18pt;\n            color: #c0392b;\n            border-bottom: 3px solid #e74c3c;\n            padding-bottom: 0.5em;\n            text-align: center;\n            margin-top: 1em;\n        \x7d\n\n        h2 \x7b\n            font-size: 16pt;\n            color: #34495e;\n            border-left: 4px solid #3498db;\n            padding-left: 1em;\n            background-color: #f8f9fa;\n            padding-top: 0.5em;\n            padding-bottom: 0.5em;\n        \x7d\n\n        h3 \x7b\n            font-size: 14pt;\n            color: #7f8c8d;\n            font-style: italic;\n        \x7d\n\n        h4 \x7b\n            font-size: 13pt;\n            color: #95a5a6;\n        \x7d\n\n        p \x7b\n            margin-bottom: 1.2em;\n            text-indent: 2em;\n            orphans: 2;\n            widows: 2;\n        \x7d\n\n        blockquote \x7b\n            border-left: 4px solid #bdc3c7;\n            padding-left: 1.5em;\n            margin-left: 0;\n            margin-right: 0;\n            font-style: italic;\n            color: #7f8c8d;\n            background-color: #f8f9fa;\n            padding-top: 0.5em;\n            padding-bottom: 0.5em;\n        \x7d\n\n        code \x7b\n            background-color: #f8f9fa;\n            padding: 0.2em 0.4em;\n            border-radius: 3px;\n            font-family: \"Courier New\", monospace;\n            font-size: 0.9em;\n            border: 1px solid #e9ecef;\n        \x7d\n\n        pre \x7b\n            background-color: #f8f9fa;\n            padding: 1em;\n            border-radius: 5px;\n            overflow-x: auto;\n            border: 1px solid #e9ecef;\n            font-family: \"Courier New\", monospace;\n            font-size: 0.9em;\n            line-height: 1.4;\n        \x7d\n\n        pre code \x7b\n            background: none;\n            padding: 0;\n            border: none;\n        \x7d\n\n        table \x7b\n            border-collapse: collapse;\n            width: 100%;\n            margin: 1em 0;\n            font-size: 11pt;\n        \x7d\n\n        th, td \x7b\n            border: 1px solid #ddd;\n            padding: 0.75em;\n            text-align: left;\n        \x7d\n\n        th \x7b\n            background-color: #f8f9fa;\n            font-weight: bold;\n            color: #2c3e50;\n        \x7d\n\n        ul, ol \x7b\n            margin-bottom: 1em;\n            padding-left: 2em;\n        \x7d\n\n        li \x7b\n            margin-bottom: 0.5em;\n        \x7d\n\n        .toc \x7b\n            page-break-after: always;\n            background-color: #f8f9fa;\n            padding: 2em;\n            border-radius: 10px;\n            margin-bottom: 2em;\n        \x7d\n\n        .toc h2 \x7b\n            color: #c0392b;\n            border: none;\n            background: none;\n            padding: 0;\n            text-align: center;\n            margin-bottom: 1.5em;\n        \x7d\n\n        .toc ul \x7b\n            list-style: none;\n            padding-left: 0;\n        \x7d\n\n        .toc li \x7b\n            margin-bottom: 0.8em;\n            padding-left: 1em;\n        \x7d\n\n        .toc a \x7b\n            color: #3498db;\n            text-decoration: none;\n        \x7d\n\n        .toc a:hover \x7b\n            text-decoration: underline;\n        \x7d\n\n        strong \x7b\n            color: #c0392b;\n            font-weight: bold;\n        \x7d\n\n        em \x7b\n            color: #8e44ad;\n            font-style: italic;\n        \x7d\n\n        .page-break \x7b\n            page-break-before: always;\n        \x7d\n    </style>\n</head>\n<body>\n    \x7bcontent\x7d\n</body>\n</html>"

/-- The HTML template string returned by create_html_template in convert_to_pdf_html.py. -/
def create_html_template_pdf : List Char :=
  String.toList "<!DOCTYPE html>\n<html lang=\"zh-CN\">\n<head>\n    <meta charset=\"UTF-8\">\n    <meta name=\"viewport\" content=\"width=device-width, initial-scale=1.0\">\n    <title>\x7btitle\x7d</title>\n    <style>\n        @page \x7b\n            size: A4;\n            margin: 2cm 1.5cm;\n        \x7d\n\n        body \x7b\n            font-family: \"Times New Roman\", \"SimSun\", \"Microsoft YaHei\", \"WenQuanYi Micro Hei\", serif;\n            font-size: 12pt;\n            line-height: 1.8;\n            color: #333;\n            margin: 0;\n            padding: 0;\n            text-align: justify;\n        \x7d\n\n        .container \x7b\n            max-width: 100%;\n            margin: 0 auto;\n            padding: 20px;\n        \x7d\n\n        h1, h2, h3, h4, h5, h6 \x7b\n            font-family: \"Times New Roman\", \"SimSun\", \"Microsoft YaHei\", serif;\n            color: #2c3e50;\n            margin-top: 2em;\n            margin-bottom: 1em;\n            font-weight: bold;\n            page-break-after: avoid;\n        \x7d\n\n        h1 \x7b\n            font-size: 18pt;\n            color: #c0392b;\n            border-bottom: 3px solid #e74c3c;\n            padding-bottom: 0.5em;\n            text-align: center;\n            margin-top: 1em;\n        \x7d\n\n        h2 \x7b\n            font-size: 16pt;\n            color: #34495e;\n            border-left: 4px solid #3498db;\n            padding-left: 1em;\n            background-color: #f8f9fa;\n            padding-top: 0.5em;\n            padding-bottom: 0.5em;\n        \x7d\n\n        h3 \x7b\n            font-size: 14pt;\n            color: #7f8c8d;\n            font-style: italic;\n        \x7d\n\n        h4 \x7b\n            font-size: 13pt;\n            color: #95a5a6;\n        \x7d\n\n        p \x7b\n            margin-bottom: 1.2em;\n            text-indent: 2em;\n            orphans: 2;\n            widows: 2;\n        \x7d\n\n        blockquote \x7b\n            border-left: 4px solid #bdc3c7;\n            padding-left: 1.5em;\n            margin-left: 0;\n            margin-right: 0;\n            font-style: italic;\n            color: #7f8c8d;\n            background-color: #f8f9fa;\n            padding-top: 0.5em;\n            padding-bottom: 0.5em;\n        \x7d\n\n        code \x7b\n            background-color: #f8f9fa;\n            padding: 0.2em 0.4em;\n            border-radius: 3px;\n            font-family: \"Courier New\", monospace;\n            font-size: 0.9em;\n            border: 1px solid #e9ecef;\n        \x7d\n\n        pre \x7b\n            background-color: #f8f9fa;\n            padding: 1em;\n            border-radius: 5px;\n            overflow-x: auto;\n            border: 1px solid #e9ecef;\n            font-family: \"Courier New\", monospace;\n            font-size: 0.9em;\n            line-height: 1.4;\n        \x7d\n\n        pre code \x7b\n            background: none;\n            padding: 0;\n            border: none;\n        \x7d\n\n        table \x7b\n            border-collapse: collapse;\n            width: 100%;\n            margin: 1em 0;\n            font-size: 11pt;\n        \x7d\n\n        th, td \x7b\n            border: 1px solid #ddd;\n            padding: 0.75em;\n            text-align: left;\n        \x7d\n\n        th \x7b\n            background-color: #f8f9fa;\n            font-weight: bold;\n            color: #2c3e50;\n        \x7d\n\n        ul, ol \x7b\n            margin-bottom: 1em;\n            padding-left: 2em;\n        \x7d\n\n        li \x7b\n            margin-bottom: 0.5em;\n        \x7d\n\n        .toc \x7b\n            page-break-after: always;\n            background-color: #f8f9fa;\n            padding: 2em;\n            border-radius: 10px;\n            margin-bottom: 2em;\n        \x7d\n\n        .toc h2 \x7b\n            color: #c0392b;\n            border: none;\n            background: none;\n            padding: 0;\n            text-align: center;\n            margin-bottom: 1.5em;\n        \x7d\n\n        .toc ul \x7b\n            list-style: none;\n            padding-left: 0;\n        \x7d\n\n        .toc li \x7b\n            margin-bottom: 0.8em;\n            padding-left: 1em;\n        \x7d\n\n        .toc a \x7b\n            color: #3498db;\n            text-decoration: none;\n        \x7d\n\n        .toc a:hover \x7b\n            text-decoration: underline;\n        \x7d\n\n        strong \x7b\n            color: #c0392b;\n            font-weight: bold;\n        \x7d\n\n        em \x7b\n            color: #8e44ad;\n            font-style: italic;\n        \x7d\n\n        .page-break \x7b\n            page-break-before: always;\n        \x7d\n\n        @media print \x7b\n            body \x7b\n                font-size: 11pt;\n                line-height: 1.6;\n            \x7d\n\n            h1 \x7b\n                page-break-before: always;\n                font-size: 16pt;\n            \x7d\n\n            h1:first-of-type \x7b\n                page-break-before: auto;\n            \x7d\n\n            h2 \x7b\n                font-size: 14pt;\n            \x7d\n\n            h3 \x7b\n                font-size: 12pt;\n            \x7d\n\n            p \x7b\n                text-indent: 2em;\n                orphans: 2;\n                widows: 2;\n            \x7d\n        \x7d\n    </style>\n</head>\n<body>\n    <div class=\"container\">\n        \x7bcontent\x7d\n    </div>\n</body>\n</html>"

/-- Title derivation in `convert_md_file_to_html`:
`os.path.basename(md_file).replace('.md', '').replace('_', ' ')`. -/
def titleOf (p : Txt) : Txt :=
  pyReplace (txt "_") (txt " ") (pyReplace (txt ".md") [] (pyBasename p))

/-- Output path derivation in `convert_md_file_to_html`:
`md_file.replace('.md', '.html').replace('src/', 'html_output/')`. -/
def outPath (p : Txt) : Txt :=
  pyReplace (txt "src/") (txt "html_output/") (pyReplace (txt ".md") (txt ".html") p)

/-- `convert_md_file_to_html` from `convert_html_only.py`, over an abstract
read-only file system `fs` (a path–content association; a missing entry
models an unreadable file).  The Python function wraps its whole body in
`try/except`, prints and returns `None` on any exception; a successful run
returns the output path and the document written there. -/
def convert_md_file_to_html (fs : List (Txt × Txt)) (p : Txt) : Option (Txt × Txt) :=
  match lookupKw p fs with
  | none => none
  | some content =>
    match pyFormat create_html_template
        [(txt "content", simple_markdown_to_html content), (txt "title", titleOf p)] with
    | none => none
    | some full => some (outPath p, full)

/-- The conversion loop of `main` in `convert_html_only.py`: run the per-file
converter on every file of the batch in order and count the successes
(`if html_file: success_count += 1`). -/
def batchSuccessCount (fs : List (Txt × Txt)) (files : List Txt) : Nat :=
  List.countP (fun f => (convert_md_file_to_html fs f).isSome) files

/-- The tail of `main` in `convert_html_only.py`: the printed tally
`success_count/total_count`, and whether the combine step runs
(`if success_count > 0`). -/
def mainReport (fs : List (Txt × Txt)) (files : List Txt) : (Nat × Nat) × Bool :=
  ((batchSuccessCount fs files, files.length), decide (0 < batchSuccessCount fs files))

/-- The sort key of `main` (both in `convert_html_only.py` and
`convert_to_pdf.py`): `int(x.split('/part')[1].split('/')[0])`, with `none`
where Python raises (IndexError when `'/part'` does not occur in the path,
ValueError when the segment before the next slash is not an integer
literal). -/
def partSortIndex (x : Txt) : Option Int :=
  match splitOnList (txt "/part") x with
  | _ :: second :: _ =>
    match splitOnList ['/'] second with
    | first :: _ => pyInt first
    | [] => none
  | _ => none

/-- `re.search(r'<body>(.*?)</body>', content, re.DOTALL)` in
`create_combined_html`: the captured group of the leftmost match — the text
between the first `<body>` and the first `</body>` after it; `none` when the
pattern does not match anywhere. -/
def extractBody (content : Txt) : Option Txt :=
  match splitAtFirst (txt "<body>") content with
  | none => none
  | some pr =>
    match splitAtFirst (txt "</body>") pr.2 with
    | none => none
    | some pr2 => some pr2.1

/-- `re.sub(r'<div class="container">(.*?)</div>', r'\1', body_content,
flags=re.DOTALL)` in `create_combined_html`. -/
def containerSub (s : Txt) : Txt :=
  subDelim (txt "<div class=\"container\">") (txt "</div>") [] [] true s

/-- `base_name = os.path.basename(html_file).replace('.html', '')`. -/
def combinedBaseName (p : Txt) : Txt := pyReplace (txt ".html") [] (pyBasename p)

/-- `readable_name = base_name.replace('_', ' ')`. -/
def readableName (p : Txt) : Txt := pyReplace (txt "_") (txt " ") (combinedBaseName p)

/-- One table-of-contents entry of `create_combined_html`:
`f'<li><a href="#\x7bbase_name\x7d">\x7breadable_name\x7d</a></li>'`. -/
def tocEntry (p : Txt) : Txt :=
  txt "<li><a href=\"#" ++ combinedBaseName p ++ txt "\">" ++ readableName p ++
    txt "</a></li>"

/-- The title page string appended first by `create_combined_html`. -/
def combinedTitlePage : Txt :=
  txt "\n    <h1>《只有弱智才买股票》</h1>\n    <div style=\"text-align: center; margin-top: 3em;\">\n        <h2>二级市场与生产实践的彻底脱节</h2>\n        <h3>——一个投机泡沫的悼词</h3>\n    </div>\n    <div style=\"page-break-after: always;\"></div>\n    "

/-- The table-of-contents block of `create_combined_html`: header text, one
entry per collected file (in order), footer text. -/
def tocBlock (paths : List Txt) : Txt :=
  txt "\n    <div class=\"toc\">\n        <h2>目录</h2>\n        <ul>\n    " ++
    (paths.map tocEntry).flatten ++
    txt "\n        </ul>\n    </div>\n    "

/-- The body of the content loop of `create_combined_html` for one file
`(path, content)`: extract the body (first match), strip container divs,
and wrap in a `<div id="base_name">` plus a page break; a file whose content
has no body marker contributes nothing (the `if body_match:` test fails and
the loop moves on). -/
def combineSections (file : Txt × Txt) : List Txt :=
  match extractBody file.2 with
  | none => []
  | some body =>
    [txt "<div id=\"" ++ combinedBaseName file.1 ++ txt "\">",
     containerSub body,
     txt "</div>",
     txt "<div style=\"page-break-after: always;\"></div>"]

/-- The `combined_content` list of `create_combined_html`: title page, then
the TOC block, then the sections of every file in order. -/
def combinedContentList (files : List (Txt × Txt)) : List Txt :=
  combinedTitlePage :: tocBlock (files.map Prod.fst) ::
    files.flatMap combineSections

/-- `full_combined_content = '\n'.join(combined_content)`. -/
def full_combined_content (files : List (Txt × Txt)) : Txt :=
  List.intercalate ['\n'] (combinedContentList files)

/-- The final step of `create_combined_html`: fill the template with the
combined content (`template.format(content=..., title=...)`). -/
def create_combined_html (files : List (Txt × Txt)) : Option Txt :=
  pyFormat create_html_template
    [(txt "content", full_combined_content files),
     (txt "title", txt "《只有弱智才买股票》- 完整版")]

/-- The sort key value used for comparisons, with a default that is never
used on well-formed collector paths (claim C9). -/
def partKey (x : String) : Int := (partSortIndex x.toList).getD 0

/-- The order induced by `all_files.sort(key=lambda x: (int(x.split('/part')[1].split('/')[0]), x))`:
Python sorts by the pair (partition index, full path), compared
lexicographically, strings by code points. -/
def fileLe (x y : String) : Prop :=
  partKey x < partKey y ∨ (partKey x = partKey y ∧ x ≤ y)

instance : DecidableRel fileLe := fun x y => by
  unfold fileLe
  infer_instance

/-- `all_files.sort(key=...)` of `main`, as a sorting function. -/
def collectorSort (l : List String) : List String := List.insertionSort fileLe l

/-- A path of the shape produced by the collector's glob patterns:
`dir/partN/base` with a single-character partition digit and no further
slashes in `dir` or `base`. -/
def collectorPath (dir : String) (n : Nat) (base : String) : String :=
  dir ++ "/part" ++ String.mk [Nat.digitChar n] ++ "/" ++ base

instance : IsTotal String fileLe := by
  constructor
  intro x y
  unfold fileLe
  rcases lt_trichotomy (partKey x) (partKey y) with h | h | h
  · exact Or.inl (Or.inl h)
  · rcases le_total x y with hxy | hxy
    · exact Or.inl (Or.inr ⟨h, hxy⟩)
    · exact Or.inr (Or.inr ⟨h.symm, hxy⟩)
  · exact Or.inr (Or.inl h)

instance : IsTrans String fileLe := by
  constructor
  intro x y z hxy hyz
  unfold fileLe at *
  rcases hxy with h1 | ⟨h1, h1'⟩ <;> rcases hyz with h2 | ⟨h2, h2'⟩
  · exact Or.inl (h1.trans h2)
  · exact Or.inl (h2 ▸ h1)
  · exact Or.inl (h1 ▸ h2)
  · exact Or.inr ⟨h1.trans h2, h1'.trans h2'⟩

instance : IsAntisymm String fileLe := by
  constructor
  intro x y hxy hyx
  unfold fileLe at *
  rcases hxy with h1 | ⟨h1, h1'⟩ <;> rcases hyx with h2 | ⟨h2, h2'⟩
  · exact absurd (h1.trans h2) (lt_irrefl _)
  · exact absurd h1 (h2 ▸ lt_irrefl _)
  · exact absurd h2 (h1 ▸ lt_irrefl _)
  · exact le_antisymm h1' h2'

theorem prefix_append_cases {u x y : Txt} (h : u <+: x ++ y) :
    u <+: x ∨ ∃ v, u = x ++ v ∧ v <+: y := by
  obtain ⟨t, ht⟩ := h
  rcases List.append_eq_append_iff.mp ht with ⟨a', ha1, _⟩ | ⟨c', hc1, hc2⟩
  · exact Or.inl ⟨a', ha1.symm⟩
  · exact Or.inr ⟨c', hc1, ⟨t, hc2.symm⟩⟩

/-- Where an infix of a concatenation can sit: inside the left part, inside
the right part, or straddling the boundary. -/
theorem infix_append_cases {u x y : Txt} (h : u <:+: x ++ y) :
    u <:+: x ∨ u <:+: y ∨
      ∃ u₁ u₂, u = u₁ ++ u₂ ∧ u₁ ≠ [] ∧ u₂ ≠ [] ∧ u₁ <:+ x ∧ u₂ <+: y := by
  induction x with
  | nil => exact Or.inr (Or.inl (by simpa using h))
  | cons ch x' ih =>
    have h' : u <:+: ch :: (x' ++ y) := by simpa using h
    rcases List.infix_cons_iff.mp h' with hpre | hinf
    · cases u with
      | nil => exact Or.inl List.nil_infix
      | cons uh ut =>
        rw [List.cons_prefix_cons] at hpre
        obtain ⟨rfl, hut⟩ := hpre
        rcases prefix_append_cases hut with h1 | ⟨v, hv1, hv2⟩
        · exact Or.inl (List.IsPrefix.isInfix (List.cons_prefix_cons.mpr ⟨rfl, h1⟩))
        · cases v with
          | nil =>
            left
            have hux : ut = x' := by simpa using hv1
            subst hux
            exact List.infix_refl _
          | cons vh vt =>
            right; right
            exact ⟨uh :: x', vh :: vt, by simp [hv1], by simp, by simp,
              List.suffix_refl _, hv2⟩
    · rcases ih hinf with h1 | h2 | ⟨u₁, u₂, he, hn1, hn2, hs, hp⟩
      · exact Or.inl (List.infix_cons_iff.mpr (Or.inr h1))
      · exact Or.inr (Or.inl h2)
      · exact Or.inr (Or.inr ⟨u₁, u₂, he, hn1, hn2, hs.trans (List.suffix_cons ch x'), hp⟩)

theorem delimMatch_none_of_no_open {o c : Txt} {nl : Bool} {s : Txt}
    (h : ¬ o.isPrefixOf s) : delimMatch o c nl s = none := by
  unfold delimMatch
  rw [if_neg h]

/-- A substitution pass is the identity on text free of the opening
delimiter's head character. -/
theorem subDelim_id {oh : Char} {ot c op cl : Txt} {nl : Bool} :
    ∀ {s : Txt}, oh ∉ s → subDelim (oh :: ot) c op cl nl s = s := by
  intro s
  induction s with
  | nil => intro _; rfl
  | cons ch cs ih =>
    intro hmem
    have hne : oh ≠ ch := fun hcontra => hmem (by simp [hcontra])
    have hnp : ¬ (oh :: ot).isPrefixOf (ch :: cs) := by
      intro hp
      obtain ⟨t, ht⟩ := List.isPrefixOf_iff_prefix.mp hp
      simp only [List.cons_append, List.cons.injEq] at ht
      exact hne ht.1
    rw [subDelim_nomatch (delimMatch_none_of_no_open hnp)]
    rw [ih (fun hm => hmem (by simp [hm]))]

/-- A substitution pass preserves (as prefix, and as infix) any span free of
the characters of both delimiters: replacements cannot start, end, or split
inside such a span, and matched span contents are copied verbatim. -/
theorem subDelim_preserves {o c op cl : Txt} {nl : Bool} (ho : o ≠ []) (hc : c ≠ [])
    {u : Txt} (hu : ∀ ch ∈ u, ch ∉ o ∧ ch ∉ c) (s : Txt) :
    (u <+: s → u <+: subDelim o c op cl nl s) ∧
    (u <:+: s → u <:+: subDelim o c op cl nl s) := by
  by_cases hu0 : u = []
  · subst hu0
    exact ⟨fun _ => List.nil_prefix, fun _ => List.nil_infix⟩
  cases s with
  | nil =>
    constructor
    · intro h
      simpa [subDelim_nil] using h
    · intro h
      simpa [subDelim_nil] using h
  | cons ch cs =>
    obtain ⟨uh, ut, rfl⟩ := List.exists_cons_of_ne_nil hu0
    cases hdm : delimMatch o c nl (ch :: cs) with
    | none =>
      have hrec := @subDelim_preserves o c op cl nl ho hc _ hu cs
      have hrecT := @subDelim_preserves o c op cl nl ho hc ut
        (fun ch h => hu ch (by simp [h])) cs
      rw [subDelim_nomatch hdm]
      have hpre : uh :: ut <+: ch :: cs → uh :: ut <+: ch :: subDelim o c op cl nl cs := by
        intro hp
        rw [List.cons_prefix_cons] at hp ⊢
        exact ⟨hp.1, hrecT.1 hp.2⟩
      constructor
      · exact hpre
      · intro hinf
        rcases List.infix_cons_iff.mp hinf with hp | hi
        · exact (hpre hp).isInfix
        · exact List.infix_cons_iff.mpr (Or.inr (hrec.2 hi))
    | some pr =>
      obtain ⟨content, rest⟩ := pr
      have hdec := delimMatch_some hdm
      have hlen : rest.length < (ch :: cs).length := delimMatch_length ho hc hdm
      have hrec := @subDelim_preserves o c op cl nl ho hc _ hu rest
      obtain ⟨oh, ot, rfl⟩ := List.exists_cons_of_ne_nil ho
      obtain ⟨cchh, cct, rfl⟩ := List.exists_cons_of_ne_nil hc
      have hch : ch = oh := by
        have := congrArg List.head? hdec
        simpa using this
      rw [subDelim_match ho hc hdm]
      have hRsuf : subDelim (oh :: ot) (cchh :: cct) op cl nl rest <:+
          op ++ content ++ cl ++ subDelim (oh :: ot) (cchh :: cct) op cl nl rest :=
        ⟨op ++ content ++ cl, by simp⟩
      have hCont : content <:+: op ++ content ++ cl ++
          subDelim (oh :: ot) (cchh :: cct) op cl nl rest :=
        ⟨op, cl ++ subDelim (oh :: ot) (cchh :: cct) op cl nl rest, by simp⟩
      constructor
      · intro hp
        exfalso
        have huh : uh = ch := (List.cons_prefix_cons.mp hp).1
        exact (hu uh (by simp)).1 (by simp [huh, hch])
      · intro hinf
        rw [hdec] at hinf
        rw [List.append_assoc, List.append_assoc] at hinf
        rcases infix_append_cases hinf with hx | hyz | ⟨u₁, u₂, he, hn1, hn2, hs1, hp1⟩
        · exfalso
          exact (hu uh (by simp)).1 (hx.subset (by simp))
        · rcases infix_append_cases hyz with hcont | hcr | ⟨u₁, u₂, he, hn1, hn2, hs1, hp1⟩
          · exact hcont.trans hCont
          · rcases infix_append_cases hcr with hcc | hr | ⟨u₁, u₂, he, hn1, hn2, hs1, hp1⟩
            · exfalso
              exact (hu uh (by simp)).2 (hcc.subset (by simp))
            · exact (hrec.2 hr).trans hRsuf.isInfix
            · exfalso
              obtain ⟨w1, wt, rfl⟩ := List.exists_cons_of_ne_nil hn1
              have hw1u : w1 ∈ uh :: ut := by
                rw [he]
                simp
              exact (hu w1 hw1u).2 (hs1.subset (by simp))
          · exfalso
            rcases prefix_append_cases hp1 with hpc | ⟨v, hv1, _⟩
            · obtain ⟨w1, wt, rfl⟩ := List.exists_cons_of_ne_nil hn2
              have hw1u : w1 ∈ uh :: ut := by
                rw [he]
                simp
              exact (hu w1 hw1u).2 (hpc.subset (by simp))
            · have hcin : cchh ∈ uh :: ut := by
                rw [he, hv1]
                simp
              exact (hu cchh hcin).2 (by simp)
        · exfalso
          obtain ⟨w1, wt, rfl⟩ := List.exists_cons_of_ne_nil hn1
          have hw1u : w1 ∈ uh :: ut := by
            rw [he]
            simp
          exact (hu w1 hw1u).1 (hs1.subset (by simp))
termination_by s.length
decreasing_by
  · simp
  · simp
  · simpa using hlen

theorem infix_intercalate_of_mem {d p : Txt} {parts : List Txt} (h : p ∈ parts) :
    p <:+: List.intercalate d parts := by
  induction parts with
  | nil => simp at h
  | cons x rest ih =>
    rcases List.mem_cons.mp h with rfl | hm
    · cases rest with
      | nil =>
        rw [intercalate_singleton']
      | cons y ys =>
        rw [intercalate_cons_of_ne_nil (by simp)]
        exact ⟨[], d ++ List.intercalate d (y :: ys), by simp⟩
    · have hne : rest ≠ [] := List.ne_nil_of_mem hm
      rw [intercalate_cons_of_ne_nil hne]
      exact (ih hm).trans (List.suffix_append _ _).isInfix

theorem mem_splitOnList_subset {d s l : Txt} (hd : d ≠ [])
    (h : l ∈ splitOnList d s) : ∀ ch ∈ l, ch ∈ s := by
  intro ch hch
  have := (infix_intercalate_of_mem (d := d) h).subset hch
  rwa [intercalate_splitOnList hd] at this

/-- A span containing no character of the separator lies entirely inside one
part of the split. -/
theorem infix_splitOnList {d : Txt} (hd : d ≠ []) {u : Txt}
    (hchars : ∀ ch ∈ d, ch ∉ u) (s : Txt) (h : u <:+: s) :
    ∃ p ∈ splitOnList d s, u <:+: p := by
  by_cases hu0 : u = []
  · subst hu0
    exact ⟨(splitOnList d s).head splitOnList_ne_nil,
      List.head_mem splitOnList_ne_nil, List.nil_infix⟩
  cases hsp : splitAtFirst d s with
  | none =>
    rw [splitOnList_of_none hsp]
    exact ⟨s, by simp, h⟩
  | some pr =>
    obtain ⟨b, a⟩ := pr
    have hdecomp := splitAtFirst_some hsp
    have hlen : a.length < s.length := splitAtFirst_some_length hd hsp
    rw [splitOnList_of_some hd hsp]
    rw [hdecomp, List.append_assoc] at h
    obtain ⟨uh, ut, hue⟩ := List.exists_cons_of_ne_nil hu0
    obtain ⟨dh, dt, hde⟩ := List.exists_cons_of_ne_nil hd
    rcases infix_append_cases h with hb | hda | ⟨u₁, u₂, he, hn1, hn2, hs1, hp1⟩
    · exact ⟨b, by simp, hb⟩
    · rcases infix_append_cases hda with hdd | ha | ⟨u₁, u₂, he, hn1, hn2, hs1, hp1⟩
      · have huu : uh ∈ u := by simp [hue]
        exact absurd huu (fun hin => hchars uh (hdd.subset hin) hin)
      · obtain ⟨p, hp, hup⟩ := infix_splitOnList hd hchars a ha
        exact ⟨p, by simp [hp], hup⟩
      · exfalso
        obtain ⟨w1, wt, hwe⟩ := List.exists_cons_of_ne_nil hn1
        have hw1u : w1 ∈ u := by
          rw [he, hwe]
          simp
        exact hchars w1 (hs1.subset (by rw [hwe]; simp)) hw1u
    · exfalso
      rcases prefix_append_cases hp1 with hpc | ⟨v, hv1, _⟩
      · obtain ⟨w1, wt, hwe⟩ := List.exists_cons_of_ne_nil hn2
        have hw1u : w1 ∈ u := by
          rw [he, hwe]
          simp
        exact hchars w1 (hpc.subset (by rw [hwe]; simp)) hw1u
      · have hdin : dh ∈ u := by
          rw [he, hv1, hde]
          simp
        exact hchars dh (by rw [hde]; simp) hdin
termination_by s.length

theorem mapLines_id {f : Txt → Txt} {s : Txt}
    (h : ∀ l ∈ splitOnList ['\n'] s, f l = l) : mapLines f s = s := by
  unfold mapLines
  rw [(List.map_congr_left h).trans (List.map_id _)]
  exact intercalate_splitOnList (by simp) s

theorem infix_mapLines {f : Txt → Txt} {u s : Txt} (hnl : '\n' ∉ u)
    (hf : ∀ l, u <:+: l → u <:+: f l) (h : u <:+: s) : u <:+: mapLines f s := by
  obtain ⟨p, hp, hup⟩ := infix_splitOnList (d := ['\n']) (by simp)
    (by intro ch hch; simp at hch; subst hch; exact hnl) s h
  exact (hf p hup).trans (infix_intercalate_of_mem (List.mem_map_of_mem f hp))

theorem dropWhile_eq_self_of_head {p : Char → Bool} {l : Txt}
    (h : ∀ ch, l.head? = some ch → ¬ p ch) : l.dropWhile p = l := by
  cases l with
  | nil => rfl
  | cons x xs =>
    rw [List.dropWhile_cons, if_neg]
    simp only [Bool.not_eq_true] at *
    exact h x rfl

theorem infix_dropWhile_of_head {u q : Txt} (h : u <:+: q)
    (h1 : ∀ ch, u.head? = some ch → ¬ pyIsSpace ch) :
    u <:+: q.dropWhile pyIsSpace := by
  cases hu : u with
  | nil => exact List.nil_infix
  | cons uh ut =>
    subst hu
    obtain ⟨x, y, hxy⟩ := h
    have hq : q = x ++ ((uh :: ut) ++ y) := by
      rw [← hxy]
      simp
    rw [hq, List.dropWhile_append]
    split
    · have hid : List.dropWhile pyIsSpace (uh :: (ut ++ y)) = uh :: (ut ++ y) :=
        dropWhile_eq_self_of_head (by
          intro ch hch
          simp only [List.head?_cons, Option.some.injEq] at hch
          subst hch
          exact h1 uh rfl)
      rw [show (uh :: ut ++ y : Txt) = uh :: (ut ++ y) from rfl, hid]
      exact ⟨[], y, by simp⟩
    · exact ⟨x.dropWhile pyIsSpace, y, by simp⟩

theorem infix_pyStrip {u q : Txt} (h : u <:+: q)
    (h1 : ∀ ch, u.head? = some ch → ¬ pyIsSpace ch)
    (h2 : ∀ ch, u.getLast? = some ch → ¬ pyIsSpace ch) :
    u <:+: pyStrip q := by
  unfold pyStrip pyRStrip pyLStrip
  rw [← List.reverse_infix]
  simp only [List.reverse_reverse]
  apply infix_dropWhile_of_head
  · rw [List.reverse_infix]
    exact infix_dropWhile_of_head h h1
  · intro ch hch
    rw [List.head?_reverse] at hch
    exact h2 ch hch

theorem pyStrip_id {s : Txt}
    (h1 : ∀ ch, s.head? = some ch → ¬ pyIsSpace ch)
    (h2 : ∀ ch, s.getLast? = some ch → ¬ pyIsSpace ch) : pyStrip s = s := by
  unfold pyStrip pyRStrip pyLStrip
  rw [dropWhile_eq_self_of_head h1]
  rw [dropWhile_eq_self_of_head (by
    intro ch hch
    rw [List.head?_reverse] at hch
    exact h2 ch hch)]
  exact List.reverse_reverse s

theorem infix_paragraphStage {u s : Txt} (hu0 : u ≠ []) (hnl : '\n' ∉ u)
    (h1 : ∀ ch, u.head? = some ch → ¬ pyIsSpace ch)
    (h2 : ∀ ch, u.getLast? = some ch → ¬ pyIsSpace ch)
    (h : u <:+: s) : u <:+: paragraphStage s := by
  obtain ⟨p, hp, hup⟩ := infix_splitOnList (d := txt "\n\n") (by simp [txt])
    (by intro ch hch; simp [txt] at hch; subst hch; exact hnl) s h
  have hq : u <:+: pyStrip p := infix_pyStrip hup h1 h2
  have hqne : pyStrip p ≠ [] := by
    intro h0
    rw [h0] at hq
    exact hu0 (List.infix_nil.mp hq)
  have hpiece : ∃ r, paragraphPiece p = some r ∧ pyStrip p <:+: r := by
    unfold paragraphPiece
    rw [if_neg hqne]
    split
    · exact ⟨pyStrip p, rfl, List.infix_refl _⟩
    · exact ⟨txt "<p>" ++ pyStrip p ++ txt "</p>", rfl, ⟨txt "<p>", txt "</p>", rfl⟩⟩
  obtain ⟨r, hr, hqr⟩ := hpiece
  exact (hq.trans hqr).trans
    (infix_intercalate_of_mem (List.mem_filterMap.mpr ⟨p, hp, hr⟩))

theorem splitAtFirst_single_not_mem {c : Char} {s b a : Txt}
    (h : splitAtFirst [c] s = some (b, a)) : c ∉ b := by
  intro hmem
  obtain ⟨b₁, b₂', hb⟩ := List.append_of_mem hmem
  refine splitAtFirst_min h b₁ (c :: b₂') hb (by simp) ?_
  exact List.cons_prefix_cons.mpr ⟨rfl, List.nil_prefix⟩

/-- The header substitution turns a line of the matching shape into the
corresponding heading element containing the rest of the line. -/
theorem headerLine_pos (k : Nat) (rest : Txt) :
    headerLine k (List.replicate k '#' ++ [' '] ++ rest) =
      hOpenTag k ++ rest ++ hCloseTag k := by
  unfold headerLine
  rw [if_pos (List.isPrefixOf_iff_prefix.mpr (List.prefix_append _ _))]
  have hlen : (List.replicate k '#' ++ [' '] : Txt).length = k + 1 := by simp
  rw [List.append_assoc, ← hlen, List.drop_left]
  simp

/-- A header substitution whose prefix test computes to `false` leaves the
line unchanged. -/
theorem headerLine_id_of_false {k : Nat} {l : Txt}
    (h : (List.replicate k '#' ++ [' ']).isPrefixOf l = false) :
    headerLine k l = l := by
  unfold headerLine
  rw [if_neg (by rw [h]; exact Bool.false_ne_true)]

/-- Newline-freeness is preserved by a header substitution of levels 1–4. -/
theorem headerLine_nl {k : Nat} (hk : k ∈ [1, 2, 3, 4]) {l : Txt}
    (h : '\n' ∉ l) : '\n' ∉ headerLine k l := by
  unfold headerLine
  split
  · intro hm
    rcases List.mem_append.mp hm with hm | hm
    · rcases List.mem_append.mp hm with hm | hm
      · fin_cases hk <;> exact absurd hm (by decide)
      · exact h (List.drop_subset _ _ hm)
    · fin_cases hk <;> exact absurd hm (by decide)
  · exact h

theorem headerLine_id_of_head {k : Nat} {l : Txt} (hk : k ≠ 0)
    (hh : ∀ ch, l.head? = some ch → ch ≠ '#') : headerLine k l = l := by
  unfold headerLine
  rw [if_neg]
  intro hp
  obtain ⟨m, rfl⟩ := Nat.exists_eq_succ_of_ne_zero hk
  have hpre := List.isPrefixOf_iff_prefix.mp hp
  rw [List.replicate_succ] at hpre
  cases l with
  | nil =>
    have := hpre.length_le
    simp at this
  | cons x xs =>
    have : '#' = x := by
      simpa using (List.cons_prefix_cons.mp (by simpa using hpre)).1
    exact hh x rfl this.symm

/-- A line starting with five or more `#` characters is untouched by all four
header substitutions (their patterns require a space after at most four
`#`). -/
theorem headerLine_id_five {k : Nat} {t : Txt} (hk : k ∈ [1, 2, 3, 4]) :
    headerLine k ('#' :: '#' :: '#' :: '#' :: '#' :: t) =
      '#' :: '#' :: '#' :: '#' :: '#' :: t := by
  fin_cases hk <;>
    · unfold headerLine
      rw [if_neg]
      intro hp
      have := List.isPrefixOf_iff_prefix.mp hp
      simp [List.replicate, List.cons_prefix_cons] at this

theorem blockquoteLine_id {l : Txt}
    (h : ¬ (txt "> ").isPrefixOf l) : blockquoteLine l = l := by
  unfold blockquoteLine
  rw [if_neg h]

theorem infix_blockquoteLine {u l : Txt} (hh : u.head? = some '<')
    (h : u <:+: l) : u <:+: blockquoteLine l := by
  unfold blockquoteLine
  split
  · rename_i hp
    have hl : txt "> " ++ l.drop 2 = l :=
      List.prefix_iff_eq_append.mp (List.isPrefixOf_iff_prefix.mp hp)
    rw [← hl] at h
    cases u with
    | nil => simp at hh
    | cons uh ut =>
      have huh : uh = '<' := by simpa using hh
      subst huh
      rcases infix_append_cases h with hin | hin | ⟨u₁, u₂, he, hn1, hn2, hs1, _⟩
      · have : '<' ∈ txt "> " := hin.subset (by simp)
        simp [txt] at this
      · exact hin.trans ⟨txt "<blockquote>", txt "</blockquote>", by simp⟩
      · exfalso
        obtain ⟨w1, wt, hwe⟩ := List.exists_cons_of_ne_nil hn1
        have hw1 : w1 = '<' := by
          have := congrArg List.head? he
          rw [hwe] at this
          simpa using this.symm
        have : '<' ∈ txt "> " := hs1.subset (by simp [hwe, hw1])
        simp [txt] at this
  · exact h

/-- The blockquote pass is the identity on text whose first line does not
start with `"> "` and that contains no newline followed by `"> "`. -/
theorem blockquoteSub_id {s : Txt} (h1 : ¬ (txt "> ") <+: s)
    (h2 : ¬ (txt "\n> ") <:+: s) : blockquoteSub s = s := by
  cases hsp : splitAtFirst ['\n'] s with
  | none =>
    unfold blockquoteSub mapLines
    rw [splitOnList_of_none hsp, List.map_singleton, intercalate_singleton']
    exact blockquoteLine_id (fun hp => h1 (List.isPrefixOf_iff_prefix.mp hp))
  | some pr =>
    obtain ⟨b, a⟩ := pr
    have hdecomp := splitAtFirst_some hsp
    have hlen : a.length < s.length := splitAtFirst_some_length (by simp) hsp
    have hsuf : '\n' :: a <:+ s := ⟨b, by rw [hdecomp]; simp⟩
    have h1a : ¬ (txt "> ") <+: a := by
      intro hp
      apply h2
      have hpre : txt "\n> " <+: '\n' :: a := by
        rw [show txt "\n> " = '\n' :: txt "> " from rfl]
        exact List.cons_prefix_cons.mpr ⟨rfl, hp⟩
      exact hpre.isInfix.trans hsuf.isInfix
    have h2a : ¬ (txt "\n> ") <:+: a := by
      intro hin
      exact h2 (hin.trans ((List.suffix_cons '\n' a).trans hsuf).isInfix)
    have hrec : blockquoteSub a = a := blockquoteSub_id h1a h2a
    have h1b : ¬ (txt "> ") <+: b := by
      intro hp
      exact h1 (hp.trans ⟨['\n'] ++ a, by rw [hdecomp]; simp⟩)
    unfold blockquoteSub mapLines
    rw [splitOnList_of_some (by simp) hsp, List.map_cons,
      intercalate_cons_of_ne_nil (by simp [splitOnList_ne_nil])]
    have hfb : blockquoteLine b = b :=
      blockquoteLine_id (fun hp => h1b (List.isPrefixOf_iff_prefix.mp hp))
    rw [hfb]
    have : List.intercalate ['\n'] ((splitOnList ['\n'] a).map blockquoteLine) = a := by
      have := hrec
      unfold blockquoteSub mapLines at this
      exact this
    rw [this]
    rw [hdecomp]
termination_by s.length

/-- A substitution pass passes over a region free of the opening delimiter's
head character. -/
theorem subDelim_append_clean {oh : Char} {ot c op cl : Txt} {nl : Bool}
    {pre : Txt} (hpre : oh ∉ pre) (s : Txt) :
    subDelim (oh :: ot) c op cl nl (pre ++ s) = pre ++ subDelim (oh :: ot) c op cl nl s := by
  induction pre with
  | nil => simp
  | cons p ps ih =>
    have hne : oh ≠ p := fun hcontra => hpre (by simp [hcontra])
    have hnp : ¬ (oh :: ot).isPrefixOf (p :: (ps ++ s)) := by
      intro hp
      obtain ⟨t, ht⟩ := List.isPrefixOf_iff_prefix.mp hp
      simp only [List.cons_append, List.cons.injEq] at ht
      exact hne ht.1
    rw [show (p :: ps) ++ s = p :: (ps ++ s) from rfl,
      subDelim_nomatch (delimMatch_none_of_no_open hnp),
      ih (fun hm => hpre (by simp [hm]))]
    rfl

/-- A substitution pass fires exactly on an explicitly delimited span whose
content is free of the closing delimiter's head character. -/
theorem subDelim_fire {oh ch2 : Char} {ot ct2 op cl : Txt} {nl : Bool}
    {content post : Txt} (hcontent : ch2 ∉ content)
    (hnl : (nl || !content.contains '\n') = true) :
    subDelim (oh :: ot) (ch2 :: ct2) op cl nl
        ((oh :: ot) ++ content ++ (ch2 :: ct2) ++ post) =
      op ++ content ++ cl ++ subDelim (oh :: ot) (ch2 :: ct2) op cl nl post := by
  have hshape : (oh :: ot) ++ content ++ (ch2 :: ct2) ++ post =
      oh :: (ot ++ (content ++ (ch2 :: ct2) ++ post)) := by simp
  have hdm : delimMatch (oh :: ot) (ch2 :: ct2) nl
      (oh :: (ot ++ (content ++ (ch2 :: ct2) ++ post))) = some (content, post) := by
    unfold delimMatch
    rw [if_pos (List.isPrefixOf_iff_prefix.mpr (by
      rw [show oh :: (ot ++ (content ++ (ch2 :: ct2) ++ post)) =
        (oh :: ot) ++ (content ++ (ch2 :: ct2) ++ post) from by simp]
      exact List.prefix_append _ _))]
    rw [show oh :: (ot ++ (content ++ (ch2 :: ct2) ++ post)) =
      (oh :: ot) ++ (content ++ (ch2 :: ct2) ++ post) from by simp]
    rw [List.drop_left]
    rw [show content ++ (ch2 :: ct2) ++ post = content ++ (ch2 :: ct2) ++ post from rfl]
    rw [splitAtFirst_append hcontent]
    simp [hnl]
    intro hnlf
    rw [hnlf] at hnl
    simpa using hnl
  rw [hshape, subDelim_match (by simp) (by simp) hdm]

set_option maxRecDepth 10000 in
theorem html_template_format_none (c t : Txt) :
    pyFormat create_html_template [(txt "content", c), (txt "title", t)] = none := rfl

set_option maxRecDepth 10000 in
theorem pdf_html_template_format_none (c t : Txt) :
    pyFormat create_html_template_pdf [(txt "title", t), (txt "content", c)] = none := rfl

/-- C1: the claim fails on the code — code bug.  The Document Wrapper never
returns a document: for every fragment and title,
`create_html_template().format(...)` raises, because the braces of the
embedded CSS are not doubled for `str.format` (`ValueError: unexpected
brace in field name` at `@media print` in `convert_html_only.py`; a
`KeyError` at the `@page` rule in `convert_to_pdf_html.py`).  Both wrapper
templates are modelled verbatim; the format call returns `none` (raises) for
all inputs. -/
theorem claim_C1_wrapper_never_returns (content title : Txt) :
    pyFormat create_html_template [(txt "content", content), (txt "title", title)] = none ∧
    pyFormat create_html_template_pdf [(txt "title", title), (txt "content", content)] = none :=
  ⟨html_template_format_none content title, pdf_html_template_format_none content title⟩

/-- C5: the claim's premise fails on the code — code bug.  On an unmodified,
readable source file the single-file converter produces no output at all on
any run: the wrapper's `format` call raises before the output file is
written, the exception is caught, and `None` is returned — so there are no
output bytes for a second run to reproduce. -/
theorem claim_C5_no_output_ever (p content : Txt) :
    convert_md_file_to_html [(p, content)] p = none := by
  unfold convert_md_file_to_html
  have hl : lookupKw p [(p, content)] = some content := by
    unfold lookupKw
    rw [if_pos rfl]
  rw [hl]
  simp only [html_template_format_none]

/-- The three-file batch of the spec's partial-failure scenario: `b.md` is
unreadable (absent from the read model), `a.md` and `c.md` read fine. -/
def fsBatch : List (Txt × Txt) :=
  [(txt "src/part0/a.md", txt "# hello"), (txt "src/part0/c.md", txt "world")]

/-- The file list of that batch, in collector order. -/
def batchFiles : List Txt :=
  [txt "src/part0/a.md", txt "src/part0/b.md", txt "src/part0/c.md"]

set_option maxRecDepth 100000 in
/-- C3: the claim fails on the code — code bug.  In the spec's scenario
(three files, one unreadable) the loop does visit every file and catch every
failure locally, but the tally printed is 0/3, not 2/3, and the combine step
never runs (`if success_count > 0` is false): the per-file converter fails on
every file, readable or not, because the template `format` call raises (C1).
-/
theorem claim_C3_batch_all_fail :
    mainReport fsBatch batchFiles = ((0, 3), false) ∧
    convert_md_file_to_html fsBatch (txt "src/part0/a.md") = none ∧
    convert_md_file_to_html fsBatch (txt "src/part0/b.md") = none := by
  refine ⟨?_, ?_, ?_⟩ <;> rfl

/-- C7: confirmed.  The Markdown Transformer is total: it is defined (and
terminates) on every input string — all its passes are pure string rewriting
— and on malformed or unbalanced markup it returns best-effort output rather
than failing, exhibited here on two unbalanced inputs (a dangling `**`, a
stray `*`, an unpaired backtick and an unclosed fence). -/
theorem claim_C7_transformer_total :
    (∀ s : Txt, ∃ t : Txt, simple_markdown_to_html s = t) ∧
    simple_markdown_to_html (txt "**unclosed *stray `tick ```fence") =
      txt "<p><em></em>unclosed *stray <code>tick </code><code></code>fence</p>" ∧
    simple_markdown_to_html (txt "*a\n\n```b") =
      txt "<p>*a</p>\n<p><code></code>`b</p>" :=
  ⟨fun s => ⟨_, rfl⟩, by decide, by decide⟩

/-- C2 counterexample: on the input consisting of a fenced block whose
content `"a\n\nb"` has an embedded blank line, the output contains no
`<pre><code>a\n\nb</code></pre>` element: the paragraph stage splits the
produced code block at the blank line and wraps its second half in a
paragraph, yielding `<pre><code>a\n<p>b</code></pre></p>`. -/
theorem claim_C2_counterexample :
    simple_markdown_to_html (txt "```a\n\nb```") =
      txt "<pre><code>a\n<p>b</code></pre></p>" ∧
    ¬ (txt "<pre><code>a\n\nb</code></pre>") <:+:
        simple_markdown_to_html (txt "```a\n\nb```") := by
  constructor
  · decide
  · decide

/-- C2 amended: for an input that is a fenced block whose delimited text
contains no blank line and no character claimed by the other rewrite rules
(no asterisk, backtick, hash or greater-than), the output is exactly a block
code element containing the delimited text verbatim — embedded single
newlines included.  (With an embedded blank line the block is split by the
paragraph stage: see the counterexample.) -/
theorem claim_C2_amended_verbatim (content : Txt)
    (h1 : ∀ ch ∈ content, ch ≠ '*' ∧ ch ≠ '`' ∧ ch ≠ '#' ∧ ch ≠ '>')
    (h2 : ¬ (txt "\n\n") <:+: content) :
    simple_markdown_to_html (txt "```" ++ content ++ txt "```") =
      txt "<pre><code>" ++ content ++ txt "</code></pre>" := by
  have hstar : '*' ∉ txt "```" ++ content ++ txt "```" := by
    intro hm
    rcases List.mem_append.mp hm with hm | hm
    · rcases List.mem_append.mp hm with hm | hm
      · exact absurd hm (by decide)
      · exact (h1 _ hm).1 rfl
    · exact absurd hm (by decide)
  have hhash : '#' ∉ txt "```" ++ content ++ txt "```" := by
    intro hm
    rcases List.mem_append.mp hm with hm | hm
    · rcases List.mem_append.mp hm with hm | hm
      · exact absurd hm (by decide)
      · exact (h1 _ hm).2.2.1 rfl
    · exact absurd hm (by decide)
  have hbq : '`' ∉ content := fun hm => (h1 _ hm).2.1 rfl
  have hhead : ∀ k : Nat, k ≠ 0 →
      headerSub k (txt "```" ++ content ++ txt "```") =
        txt "```" ++ content ++ txt "```" := by
    intro k hk
    apply mapLines_id
    intro l hl
    apply headerLine_id_of_head hk
    intro ch hch hc
    subst hc
    exact hhash (mem_splitOnList_subset (by simp) hl '#' (List.mem_of_mem_head? hch))
  have hbold : boldSub (txt "```" ++ content ++ txt "```") =
      txt "```" ++ content ++ txt "```" := by
    unfold boldSub
    rw [show txt "**" = '*' :: txt "*" from rfl]
    exact subDelim_id hstar
  have hital : italicSub (txt "```" ++ content ++ txt "```") =
      txt "```" ++ content ++ txt "```" := by
    unfold italicSub
    rw [show txt "*" = '*' :: ([] : Txt) from rfl]
    exact subDelim_id hstar
  have hcb : codeBlockSub (txt "```" ++ content ++ txt "```") =
      txt "<pre><code>" ++ content ++ txt "</code></pre>" := by
    unfold codeBlockSub
    have hfire := @subDelim_fire '`' '`' (txt "``") (txt "``")
      (txt "<pre><code>") (txt "</code></pre>") true content [] hbq (by simp)
    rw [subDelim_nil, List.append_nil, List.append_nil] at hfire
    rw [show txt "```" = '`' :: txt "``" from rfl]
    exact hfire
  have hubq : '`' ∉ txt "<pre><code>" ++ content ++ txt "</code></pre>" := by
    intro hm
    rcases List.mem_append.mp hm with hm | hm
    · rcases List.mem_append.mp hm with hm | hm
      · exact absurd hm (by decide)
      · exact hbq hm
    · exact absurd hm (by decide)
  have hic : inlineCodeSub (txt "<pre><code>" ++ content ++ txt "</code></pre>") =
      txt "<pre><code>" ++ content ++ txt "</code></pre>" := by
    unfold inlineCodeSub
    rw [show txt "`" = '`' :: ([] : Txt) from rfl]
    exact subDelim_id hubq
  have hshapeu : txt "<pre><code>" ++ content ++ txt "</code></pre>" =
      txt "<pre><code>" ++ (content ++ txt "</code></pre>") := by simp
  have hnn : ¬ (txt "\n\n") <:+: txt "<pre><code>" ++ content ++ txt "</code></pre>" := by
    intro hin
    rw [hshapeu] at hin
    rcases infix_append_cases hin with hA | hB | ⟨u₁, u₂, he, hn1, hn2, hs1, hp1⟩
    · exact absurd (hA.subset (show '\n' ∈ txt "\n\n" by decide)) (by decide)
    · rcases infix_append_cases hB with hBa | hBb | ⟨u₁, u₂, he, hn1, hn2, hs1, hp1⟩
      · exact h2 hBa
      · exact absurd (hBb.subset (show '\n' ∈ txt "\n\n" by decide)) (by decide)
      · obtain ⟨w, wt, hwe⟩ := List.exists_cons_of_ne_nil hn2
        have hw : w = '<' := by
          rw [hwe, show txt "</code></pre>" = '<' :: txt "/code></pre>" from rfl] at hp1
          exact (List.cons_prefix_cons.mp hp1).1
        have hwin : w ∈ txt "\n\n" := by
          rw [he, hwe]
          simp
        rw [hw] at hwin
        exact absurd hwin (by decide)
    · obtain ⟨w, wt, hwe⟩ := List.exists_cons_of_ne_nil hn1
      have hu₁pre : u₁ <+: txt "\n\n" := ⟨u₂, he.symm⟩
      have hw : w = '\n' := by
        rw [hwe, show txt "\n\n" = '\n' :: txt "\n" from rfl] at hu₁pre
        exact (List.cons_prefix_cons.mp hu₁pre).1
      have hwin : w ∈ txt "<pre><code>" := hs1.subset (by rw [hwe]; simp)
      rw [hw] at hwin
      exact absurd hwin (by decide)
  have hbqt1 : ¬ (txt "> ") <+: txt "<pre><code>" ++ content ++ txt "</code></pre>" := by
    intro hp
    rw [show txt "<pre><code>" ++ content ++ txt "</code></pre>" =
        '<' :: (txt "pre><code>" ++ content ++ txt "</code></pre>") from rfl,
      show txt "> " = '>' :: txt " " from rfl] at hp
    exact absurd (List.cons_prefix_cons.mp hp).1 (by decide)
  have hbqt2 : ¬ (txt "\n> ") <:+: txt "<pre><code>" ++ content ++ txt "</code></pre>" := by
    intro hin
    rw [hshapeu] at hin
    rcases infix_append_cases hin with hA | hB | ⟨u₁, u₂, he, hn1, hn2, hs1, hp1⟩
    · exact absurd (hA.subset (show '\n' ∈ txt "\n> " by decide)) (by decide)
    · rcases infix_append_cases hB with hBa | hBb | ⟨u₁, u₂, he, hn1, hn2, hs1, hp1⟩
      · exact (h1 '>' (hBa.subset (show '>' ∈ txt "\n> " by decide))).2.2.2 rfl
      · exact absurd (hBb.subset (show '\n' ∈ txt "\n> " by decide)) (by decide)
      · obtain ⟨w, wt, hwe⟩ := List.exists_cons_of_ne_nil hn2
        have hw : w = '<' := by
          rw [hwe, show txt "</code></pre>" = '<' :: txt "/code></pre>" from rfl] at hp1
          exact (List.cons_prefix_cons.mp hp1).1
        have hwin : w ∈ txt "\n> " := by
          rw [he, hwe]
          simp
        rw [hw] at hwin
        exact absurd hwin (by decide)
    · obtain ⟨w, wt, hwe⟩ := List.exists_cons_of_ne_nil hn1
      have hu₁pre : u₁ <+: txt "\n> " := ⟨u₂, he.symm⟩
      have hw : w = '\n' := by
        rw [hwe, show txt "\n> " = '\n' :: txt "> " from rfl] at hu₁pre
        exact (List.cons_prefix_cons.mp hu₁pre).1
      have hwin : w ∈ txt "<pre><code>" := hs1.subset (by rw [hwe]; simp)
      rw [hw] at hwin
      exact absurd hwin (by decide)
  have hbqs : blockquoteSub (txt "<pre><code>" ++ content ++ txt "</code></pre>") =
      txt "<pre><code>" ++ content ++ txt "</code></pre>" := blockquoteSub_id hbqt1 hbqt2
  have hstripu : pyStrip (txt "<pre><code>" ++ content ++ txt "</code></pre>") =
      txt "<pre><code>" ++ content ++ txt "</code></pre>" := by
    apply pyStrip_id
    · intro ch hch
      rw [show txt "<pre><code>" ++ content ++ txt "</code></pre>" =
          '<' :: (txt "pre><code>" ++ content ++ txt "</code></pre>") from rfl] at hch
      simp only [List.head?_cons, Option.some.injEq] at hch
      subst hch
      decide
    · intro ch hch
      rw [hshapeu, List.getLast?_append, List.getLast?_append] at hch
      have : (txt "</code></pre>").getLast? = some '>' := by decide
      rw [this] at hch
      simp only [Option.or_some, Option.some.injEq] at hch
      subst hch
      decide
  have hpiece : paragraphPiece (txt "<pre><code>" ++ content ++ txt "</code></pre>") =
      some (txt "<pre><code>" ++ content ++ txt "</code></pre>") := by
    have hpre4 : txt "<pre" <+: txt "<pre><code>" ++ (content ++ txt "</code></pre>") := by
      rw [show txt "<pre><code>" ++ (content ++ txt "</code></pre>") =
        txt "<pre" ++ (txt "><code>" ++ (content ++ txt "</code></pre>")) from rfl]
      exact List.prefix_append _ _
    have hne0 : ¬ (txt "<pre><code>" ++ content ++ txt "</code></pre>" = ([] : Txt)) := by
      intro h0
      have hmem : '<' ∈ txt "<pre><code>" ++ content ++ txt "</code></pre>" :=
        List.mem_append.mpr (Or.inl (List.mem_append.mpr (Or.inl (by decide))))
      rw [h0] at hmem
      simp at hmem
    unfold paragraphPiece
    rw [hstripu, if_neg hne0, if_pos (by simp [hpre4])]
  have hpar : paragraphStage (txt "<pre><code>" ++ content ++ txt "</code></pre>") =
      txt "<pre><code>" ++ content ++ txt "</code></pre>" := by
    unfold paragraphStage
    rw [splitOnList_of_none ((splitAtFirst_none_iff (by decide)).mpr hnn)]
    have hfm : List.filterMap paragraphPiece
        [txt "<pre><code>" ++ content ++ txt "</code></pre>"] =
        [txt "<pre><code>" ++ content ++ txt "</code></pre>"] := by
      rw [List.filterMap_cons, hpiece]
      rfl
    rw [hfm]
    exact intercalate_singleton' _ _
  unfold simple_markdown_to_html
  rw [hhead 1 (by decide), hhead 2 (by decide), hhead 3 (by decide), hhead 4 (by decide),
    hbold, hital, hcb, hic, hbqs, hpar]

/-- C2 witness for the amended claim: a fenced block containing a single
embedded newline is rendered verbatim. -/
theorem claim_C2_amended_verbatim_witness :
    simple_markdown_to_html (txt "```line one\nline two```") =
      txt "<pre><code>line one\nline two</code></pre>" :=
  claim_C2_amended_verbatim (txt "line one\nline two") (by decide) (by decide)

theorem digitChar_ne_slash {n : Nat} (hn : n < 10) : Nat.digitChar n ≠ '/' := by
  interval_cases n <;> decide

theorem pyInt_digitChar {n : Nat} (hn : n < 10) :
    pyInt [Nat.digitChar n] = some (n : Int) := by
  interval_cases n <;> decide

/-- Head analysis for the inner `.split('/')[0]` of the sort key: on
`c :: b` where `c` is not a slash and `b` is empty or starts with a slash,
the first slash-separated field is `[c]`. -/
theorem slashField_head {c : Char} (hc : c ≠ '/') {b : Txt}
    (hb : b = [] ∨ ∃ v, b = '/' :: v) :
    (match splitOnList ['/'] (c :: b) with
     | first :: _ => pyInt first
     | [] => none) = pyInt [c] := by
  rcases hb with rfl | ⟨v, rfl⟩
  · rw [splitOnList_of_none ((splitAtFirst_none_iff (by simp)).mpr (by
      intro hin
      have hmem := singleton_infix_iff_mem.mp hin
      simp at hmem
      exact hc hmem.symm))]
  · have hsp : splitAtFirst ['/'] ([c] ++ ['/'] ++ v) = some ([c], v) :=
      splitAtFirst_append (by simp [Ne.symm hc])
    rw [show (c :: '/' :: v : Txt) = [c] ++ ['/'] ++ v from rfl,
      splitOnList_of_some (by simp) hsp]

/-- Shape of the first `'/part'` split of the remainder `c :: '/' :: t`
(partition digit, slash, base name): either `'/part'` does not occur, or the
prefix before it starts with `c` and continues empty-or-with-a-slash. -/
theorem remainder_split_shape {c : Char} (hc : c ≠ '/') (t : Txt) :
    splitAtFirst (txt "/part") (c :: '/' :: t) = none ∨
      ∃ b a, splitAtFirst (txt "/part") (c :: '/' :: t) = some (c :: b, a) ∧
        (b = [] ∨ ∃ v, b = '/' :: v) := by
  rw [show (c :: '/' :: t : Txt) = c :: ('/' :: t) from rfl, splitAtFirst]
  rw [if_neg (by
    intro hp
    obtain ⟨w, hw⟩ := List.isPrefixOf_iff_prefix.mp hp
    simp only [show txt "/part" = '/' :: txt "part" from rfl, List.cons_append,
      List.cons.injEq] at hw
    exact hc hw.1.symm)]
  cases hs2 : splitAtFirst (txt "/part") ('/' :: t) with
  | none => exact Or.inl rfl
  | some pr =>
    obtain ⟨b', a⟩ := pr
    refine Or.inr ⟨b', a, rfl, ?_⟩
    have hdec := splitAtFirst_some hs2
    cases b' with
    | nil => exact Or.inl rfl
    | cons x b'' =>
      refine Or.inr ⟨b'', ?_⟩
      have hx : x = '/' := by
        have h2 := congrArg List.head? hdec
        simp at h2
        exact h2.symm
      rw [hx]

/-- Worker for claims C9 and C4: the sort-key extraction succeeds with the
partition digit on every collector-shaped path. -/
theorem partSortIndex_collectorPath (dir base : String) (n : Nat) (hn : n < 10)
    (hdir : '/' ∉ dir.data) :
    partSortIndex (collectorPath dir n base).toList = some (n : Int) := by
  have hpath : (collectorPath dir n base).toList =
      dir.data ++ txt "/part" ++ (Nat.digitChar n :: '/' :: base.data) := by
    show (collectorPath dir n base).data = _
    unfold collectorPath
    rw [String.data_append, String.data_append, String.data_append, String.data_append]
    simp [txt]
  have hsp1 : splitAtFirst (txt "/part")
      (dir.data ++ txt "/part" ++ (Nat.digitChar n :: '/' :: base.data)) =
      some (dir.data, Nat.digitChar n :: '/' :: base.data) := by
    rw [show txt "/part" = '/' :: txt "part" from rfl]
    exact splitAtFirst_append hdir
  have hd5 : (txt "/part" : Txt) ≠ [] := by decide
  have hdig : Nat.digitChar n ≠ '/' := digitChar_ne_slash hn
  rw [hpath]
  unfold partSortIndex
  rw [splitOnList_of_some hd5 hsp1]
  rcases remainder_split_shape hdig base.data with hnone | ⟨b, a, hsome, hb⟩
  · rw [splitOnList_of_none hnone]
    have := slashField_head hdig (Or.inr ⟨base.data, rfl⟩)
    simp only [this]
    exact pyInt_digitChar hn
  · rw [splitOnList_of_some hd5 hsome]
    have := slashField_head hdig hb
    simp only [this]
    exact pyInt_digitChar hn

/-- C9: confirmed.  On every path of the collector's shape
(`dir/partN/base` with a single decimal partition digit and no slash in the
directory prefix or the base name), the sort-key extraction
`int(x.split('/part')[1].split('/')[0])` succeeds and returns the partition
index; the structural-error branch (IndexError/ValueError, modelled as
`none`) is unreachable on such inputs. -/
theorem claim_C9_sort_key_extraction (dir base : String) (n : Nat) (hn : n < 10)
    (hdir : '/' ∉ dir.data) (hbase : '/' ∉ base.data) :
    partSortIndex (collectorPath dir n base).toList = some (n : Int) :=
  partSortIndex_collectorPath dir base n hn hdir

/-- C9 witness: the extraction on a concrete collector path. -/
theorem claim_C9_sort_key_extraction_witness :
    partSortIndex (collectorPath "src" 3 "chapter_one.md").toList = some (3 : Int) :=
  claim_C9_sort_key_extraction "src" "chapter_one.md" 3 (by decide) (by decide) (by decide)

/-- C4: confirmed.  The File Collector's sort (`all_files.sort(key=lambda x:
(int(...), x))`) returns the files ordered by partition index first and full
path (code-point lexicographic) second, is a permutation of its input, and
is independent of the discovery order: any permutation of the same file
multiset sorts to the same list.  On collector-shaped paths the key
extraction returns exactly the embedded partition index, so part0 files
precede part1 files, which precede part2 files. -/
theorem claim_C4_collector_sort (l : List String)
    (h : ∀ x ∈ l, ∃ dir base n, n < 10 ∧ '/' ∉ dir.data ∧ '/' ∉ base.data ∧
        x = collectorPath dir n base) :
    List.Perm (collectorSort l) l ∧
    List.Sorted fileLe (collectorSort l) ∧
    (∀ x ∈ l, partSortIndex x.toList = some (partKey x)) ∧
    (∀ l2, List.Perm l l2 → collectorSort l2 = collectorSort l) := by
  refine ⟨List.perm_insertionSort fileLe l, List.sorted_insertionSort fileLe l, ?_, ?_⟩
  · intro x hx
    obtain ⟨dir, base, n, hn, hdir, _, rfl⟩ := h x hx
    have hidx := partSortIndex_collectorPath dir base n hn hdir
    unfold partKey
    rw [hidx]
    rfl
  · intro l2 hperm
    exact List.eq_of_perm_of_sorted
      ((List.perm_insertionSort fileLe l2).trans
        (hperm.symm.trans (List.perm_insertionSort fileLe l).symm))
      (List.sorted_insertionSort fileLe l2)
      (List.sorted_insertionSort fileLe l)

/-- C4 witness: a concrete three-file batch in mixed discovery order. -/
theorem claim_C4_collector_sort_witness :
    (∀ x ∈ ["src/part2/b.md", "src/part0/a.md", "src/part1/c.md"],
      ∃ dir base n, n < 10 ∧ '/' ∉ dir.data ∧ '/' ∉ base.data ∧
        x = collectorPath dir n base) ∧
    (List.Perm (collectorSort ["src/part2/b.md", "src/part0/a.md", "src/part1/c.md"])
        ["src/part2/b.md", "src/part0/a.md", "src/part1/c.md"] ∧
      List.Sorted fileLe (collectorSort ["src/part2/b.md", "src/part0/a.md", "src/part1/c.md"]) ∧
      (∀ x ∈ ["src/part2/b.md", "src/part0/a.md", "src/part1/c.md"],
        partSortIndex x.toList = some (partKey x)) ∧
      (∀ l2, List.Perm ["src/part2/b.md", "src/part0/a.md", "src/part1/c.md"] l2 →
        collectorSort l2 = collectorSort ["src/part2/b.md", "src/part0/a.md", "src/part1/c.md"])) := by
  have hshape : ∀ x ∈ ["src/part2/b.md", "src/part0/a.md", "src/part1/c.md"],
      ∃ dir base n, n < 10 ∧ '/' ∉ dir.data ∧ '/' ∉ base.data ∧
        x = collectorPath dir n base := by
    intro x hx
    fin_cases hx
    · exact ⟨"src", "b.md", 2, by decide, by decide, by decide, by decide⟩
    · exact ⟨"src", "a.md", 0, by decide, by decide, by decide, by decide⟩
    · exact ⟨"src", "c.md", 1, by decide, by decide, by decide, by decide⟩
  exact ⟨hshape, claim_C4_collector_sort _ hshape⟩

theorem boldSub_preserves {u s : Txt} (hstar : '*' ∉ u) (h : u <:+: s) :
    u <:+: boldSub s := by
  unfold boldSub
  refine (@subDelim_preserves (txt "**") (txt "**") (txt "<strong>") (txt "</strong>")
    false (by decide) (by decide) u ?_ s).2 h
  intro ch hch
  constructor <;>
    · intro hm
      rw [show (txt "**" : Txt) = ['*', '*'] from rfl] at hm
      have hc : ch = '*' := by simpa using hm
      subst hc
      exact hstar hch

theorem italicSub_preserves {u s : Txt} (hstar : '*' ∉ u) (h : u <:+: s) :
    u <:+: italicSub s := by
  unfold italicSub
  refine (@subDelim_preserves (txt "*") (txt "*") (txt "<em>") (txt "</em>")
    false (by decide) (by decide) u ?_ s).2 h
  intro ch hch
  constructor <;>
    · intro hm
      rw [show (txt "*" : Txt) = ['*'] from rfl] at hm
      have hc : ch = '*' := by simpa using hm
      subst hc
      exact hstar hch

theorem codeBlockSub_preserves {u s : Txt} (htick : '`' ∉ u) (h : u <:+: s) :
    u <:+: codeBlockSub s := by
  unfold codeBlockSub
  refine (@subDelim_preserves (txt "```") (txt "```") (txt "<pre><code>")
    (txt "</code></pre>") true (by decide) (by decide) u ?_ s).2 h
  intro ch hch
  constructor <;>
    · intro hm
      rw [show (txt "```" : Txt) = ['`', '`', '`'] from rfl] at hm
      have hc : ch = '`' := by simpa using hm
      subst hc
      exact htick hch

theorem inlineCodeSub_preserves {u s : Txt} (htick : '`' ∉ u) (h : u <:+: s) :
    u <:+: inlineCodeSub s := by
  unfold inlineCodeSub
  refine (@subDelim_preserves (txt "`") (txt "`") (txt "<code>") (txt "</code>")
    false (by decide) (by decide) u ?_ s).2 h
  intro ch hch
  constructor <;>
    · intro hm
      rw [show (txt "`" : Txt) = ['`'] from rfl] at hm
      have hc : ch = '`' := by simpa using hm
      subst hc
      exact htick hch

theorem blockquoteSub_preserves {u s : Txt} (hh : u.head? = some '<')
    (hnl : '\n' ∉ u) (h : u <:+: s) : u <:+: blockquoteSub s := by
  unfold blockquoteSub
  exact infix_mapLines hnl (fun l hl => infix_blockquoteLine hh hl) h

/-- C6: confirmed.  (a) In any multi-line input, a line of the shape
`"#"*k ++ " " ++ rest` with `k ∈ 1..4` becomes the heading element
`<hk>rest</hk>` of the matching level, which survives verbatim into the full
transformer output whenever `rest` is free of the inline-rule characters
(`*`, backtick); (b) each header substitution leaves every line beginning
with five `#` characters unmodified; (c) on a single-line five-`#` input the
full pipeline yields a plain paragraph around the unmodified line — no
heading element of any level is produced. -/
theorem claim_C6_headers (lines : List Txt) (i k : Nat) (rest : Txt)
    (hk : k ∈ [1, 2, 3, 4])
    (hlines : ∀ l ∈ lines, '\n' ∉ l)
    (hi : i < lines.length)
    (hline : lines.get ⟨i, hi⟩ = List.replicate k '#' ++ [' '] ++ rest)
    (hrest : ∀ ch ∈ rest, ch ≠ '*' ∧ ch ≠ '`' ∧ ch ≠ '\n') :
    (hOpenTag k ++ rest ++ hCloseTag k) <:+:
        simple_markdown_to_html (List.intercalate ['\n'] lines) ∧
    (∀ (j : Nat) (t : Txt), j ∈ [1, 2, 3, 4] →
      headerLine j ('#' :: '#' :: '#' :: '#' :: '#' :: t) =
        '#' :: '#' :: '#' :: '#' :: '#' :: t) ∧
    (∀ r2 : Txt, r2 ≠ [] → (∀ ch ∈ r2, ch ≠ '*' ∧ ch ≠ '`' ∧ ch ≠ '\n') →
      (∀ ch, r2.getLast? = some ch → ¬ pyIsSpace ch) →
      simple_markdown_to_html (txt "##### " ++ r2) =
        txt "<p>" ++ (txt "##### " ++ r2) ++ txt "</p>") := by
  refine ⟨?_, ?_, ?_⟩
  · -- (a) the heading survives into the output
    have hne : lines ≠ [] := by
      intro h0
      rw [h0] at hi
      simp at hi
    have hmap1 : ∀ l ∈ lines.map (headerLine 1), '\n' ∉ l := by
      intro l hl
      obtain ⟨l0, hl0, rfl⟩ := List.mem_map.mp hl
      exact headerLine_nl (by decide) (hlines l0 hl0)
    have hmap2 : ∀ l ∈ (lines.map (headerLine 1)).map (headerLine 2), '\n' ∉ l := by
      intro l hl
      obtain ⟨l0, hl0, rfl⟩ := List.mem_map.mp hl
      exact headerLine_nl (by decide) (hmap1 l0 hl0)
    have hmap3 : ∀ l ∈ ((lines.map (headerLine 1)).map (headerLine 2)).map (headerLine 3),
        '\n' ∉ l := by
      intro l hl
      obtain ⟨l0, hl0, rfl⟩ := List.mem_map.mp hl
      exact headerLine_nl (by decide) (hmap2 l0 hl0)
    have hc1 : headerSub 1 (List.intercalate ['\n'] lines) =
        List.intercalate ['\n'] (lines.map (headerLine 1)) :=
      mapLines_intercalate hne hlines
    have hc2 : headerSub 2 (List.intercalate ['\n'] (lines.map (headerLine 1))) =
        List.intercalate ['\n'] ((lines.map (headerLine 1)).map (headerLine 2)) :=
      mapLines_intercalate (by simp [hne]) hmap1
    have hc3 : headerSub 3 (List.intercalate ['\n']
          ((lines.map (headerLine 1)).map (headerLine 2))) =
        List.intercalate ['\n']
          (((lines.map (headerLine 1)).map (headerLine 2)).map (headerLine 3)) :=
      mapLines_intercalate (by simp [hne]) hmap2
    have hc4 : headerSub 4 (List.intercalate ['\n']
          (((lines.map (headerLine 1)).map (headerLine 2)).map (headerLine 3))) =
        List.intercalate ['\n']
          ((((lines.map (headerLine 1)).map (headerLine 2)).map (headerLine 3)).map
            (headerLine 4)) :=
      mapLines_intercalate (by simp [hne]) hmap3
    have hval : headerLine 4 (headerLine 3 (headerLine 2 (headerLine 1
        (lines.get ⟨i, hi⟩)))) = hOpenTag k ++ rest ++ hCloseTag k := by
      rw [hline]
      fin_cases hk
      · have s1 := headerLine_pos 1 rest
        have s2 : headerLine 2 (hOpenTag 1 ++ rest ++ hCloseTag 1) =
            hOpenTag 1 ++ rest ++ hCloseTag 1 := headerLine_id_of_false rfl
        have s3 : headerLine 3 (hOpenTag 1 ++ rest ++ hCloseTag 1) =
            hOpenTag 1 ++ rest ++ hCloseTag 1 := headerLine_id_of_false rfl
        have s4 : headerLine 4 (hOpenTag 1 ++ rest ++ hCloseTag 1) =
            hOpenTag 1 ++ rest ++ hCloseTag 1 := headerLine_id_of_false rfl
        rw [s1, s2, s3, s4]
      · have s1 : headerLine 1 (List.replicate 2 '#' ++ [' '] ++ rest) =
            List.replicate 2 '#' ++ [' '] ++ rest := headerLine_id_of_false rfl
        have s2 := headerLine_pos 2 rest
        have s3 : headerLine 3 (hOpenTag 2 ++ rest ++ hCloseTag 2) =
            hOpenTag 2 ++ rest ++ hCloseTag 2 := headerLine_id_of_false rfl
        have s4 : headerLine 4 (hOpenTag 2 ++ rest ++ hCloseTag 2) =
            hOpenTag 2 ++ rest ++ hCloseTag 2 := headerLine_id_of_false rfl
        rw [s1, s2, s3, s4]
      · have s1 : headerLine 1 (List.replicate 3 '#' ++ [' '] ++ rest) =
            List.replicate 3 '#' ++ [' '] ++ rest := headerLine_id_of_false rfl
        have s2 : headerLine 2 (List.replicate 3 '#' ++ [' '] ++ rest) =
            List.replicate 3 '#' ++ [' '] ++ rest := headerLine_id_of_false rfl
        have s3 := headerLine_pos 3 rest
        have s4 : headerLine 4 (hOpenTag 3 ++ rest ++ hCloseTag 3) =
            hOpenTag 3 ++ rest ++ hCloseTag 3 := headerLine_id_of_false rfl
        rw [s1, s2, s3, s4]
      · have s1 : headerLine 1 (List.replicate 4 '#' ++ [' '] ++ rest) =
            List.replicate 4 '#' ++ [' '] ++ rest := headerLine_id_of_false rfl
        have s2 : headerLine 2 (List.replicate 4 '#' ++ [' '] ++ rest) =
            List.replicate 4 '#' ++ [' '] ++ rest := headerLine_id_of_false rfl
        have s3 : headerLine 3 (List.replicate 4 '#' ++ [' '] ++ rest) =
            List.replicate 4 '#' ++ [' '] ++ rest := headerLine_id_of_false rfl
        have s4 := headerLine_pos 4 rest
        rw [s1, s2, s3, s4]
    have hLmem : (hOpenTag k ++ rest ++ hCloseTag k) ∈
        (((lines.map (headerLine 1)).map (headerLine 2)).map (headerLine 3)).map
          (headerLine 4) := by
      rw [← hval]
      exact List.mem_map_of_mem _ (List.mem_map_of_mem _ (List.mem_map_of_mem _
        (List.mem_map_of_mem _ (lines.get_mem i hi))))
    have hustar : '*' ∉ hOpenTag k ++ rest ++ hCloseTag k := by
      intro hm
      rcases List.mem_append.mp hm with hm | hm
      · rcases List.mem_append.mp hm with hm | hm
        · fin_cases hk <;> exact absurd hm (by decide)
        · exact (hrest _ hm).1 rfl
      · fin_cases hk <;> exact absurd hm (by decide)
    have hutick : '`' ∉ hOpenTag k ++ rest ++ hCloseTag k := by
      intro hm
      rcases List.mem_append.mp hm with hm | hm
      · rcases List.mem_append.mp hm with hm | hm
        · fin_cases hk <;> exact absurd hm (by decide)
        · exact (hrest _ hm).2.1 rfl
      · fin_cases hk <;> exact absurd hm (by decide)
    have hunl : '\n' ∉ hOpenTag k ++ rest ++ hCloseTag k := by
      intro hm
      rcases List.mem_append.mp hm with hm | hm
      · rcases List.mem_append.mp hm with hm | hm
        · fin_cases hk <;> exact absurd hm (by decide)
        · exact (hrest _ hm).2.2 rfl
      · fin_cases hk <;> exact absurd hm (by decide)
    have huhead : (hOpenTag k ++ rest ++ hCloseTag k).head? = some '<' := by
      fin_cases hk <;> rfl
    have hulast : (hOpenTag k ++ rest ++ hCloseTag k).getLast? = some '>' := by
      rw [List.getLast?_append]
      fin_cases hk <;> rfl
    have hu0 : hOpenTag k ++ rest ++ hCloseTag k ≠ [] := by
      intro h0
      rw [h0] at huhead
      simp at huhead
    have hA0 : (hOpenTag k ++ rest ++ hCloseTag k) <:+:
        List.intercalate ['\n']
          ((((lines.map (headerLine 1)).map (headerLine 2)).map (headerLine 3)).map
            (headerLine 4)) :=
      infix_intercalate_of_mem hLmem
    have hA1 := boldSub_preserves hustar hA0
    have hA2 := italicSub_preserves hustar hA1
    have hA3 := codeBlockSub_preserves hutick hA2
    have hA4 := inlineCodeSub_preserves hutick hA3
    have hA5 := blockquoteSub_preserves huhead hunl hA4
    have hA6 := infix_paragraphStage hu0 hunl
      (by intro ch hch; rw [huhead] at hch; simp at hch; subst hch; decide)
      (by intro ch hch; rw [hulast] at hch; simp at hch; subst hch; decide)
      hA5
    unfold simple_markdown_to_html
    rw [hc1, hc2, hc3, hc4]
    exact hA6
  · -- (b) five or more hashes: untouched by every header substitution
    intro j t hj
    exact headerLine_id_five hj
  · -- (c) the full pipeline wraps a five-hash line in a paragraph
    intro r2 hr0 hclean hlast
    have hnl : '\n' ∉ txt "##### " ++ r2 := by
      intro hm
      rcases List.mem_append.mp hm with hm | hm
      · exact absurd hm (by decide)
      · exact (hclean _ hm).2.2 rfl
    have hstar : '*' ∉ txt "##### " ++ r2 := by
      intro hm
      rcases List.mem_append.mp hm with hm | hm
      · exact absurd hm (by decide)
      · exact (hclean _ hm).1 rfl
    have htick : '`' ∉ txt "##### " ++ r2 := by
      intro hm
      rcases List.mem_append.mp hm with hm | hm
      · exact absurd hm (by decide)
      · exact (hclean _ hm).2.1 rfl
    have hsingle : splitOnList ['\n'] (txt "##### " ++ r2) = [txt "##### " ++ r2] :=
      splitOnList_eq_self_of_not_mem hnl
    have hhead : ∀ j : Nat, j ∈ [1, 2, 3, 4] →
        headerSub j (txt "##### " ++ r2) = txt "##### " ++ r2 := by
      intro j hj
      apply mapLines_id
      rw [hsingle]
      intro l hl
      have hle : l = txt "##### " ++ r2 := by simpa using hl
      subst hle
      exact headerLine_id_five hj
    have hbold : boldSub (txt "##### " ++ r2) = txt "##### " ++ r2 := by
      unfold boldSub
      rw [show txt "**" = '*' :: txt "*" from rfl]
      exact subDelim_id hstar
    have hital : italicSub (txt "##### " ++ r2) = txt "##### " ++ r2 := by
      unfold italicSub
      rw [show txt "*" = '*' :: ([] : Txt) from rfl]
      exact subDelim_id hstar
    have hcb : codeBlockSub (txt "##### " ++ r2) = txt "##### " ++ r2 := by
      unfold codeBlockSub
      rw [show txt "```" = '`' :: txt "``" from rfl]
      exact subDelim_id htick
    have hic : inlineCodeSub (txt "##### " ++ r2) = txt "##### " ++ r2 := by
      unfold inlineCodeSub
      rw [show txt "`" = '`' :: ([] : Txt) from rfl]
      exact subDelim_id htick
    have hbqs : blockquoteSub (txt "##### " ++ r2) = txt "##### " ++ r2 := by
      apply blockquoteSub_id
      · intro hp
        rw [show txt "##### " ++ r2 = '#' :: (txt "#### " ++ r2) from rfl,
          show txt "> " = '>' :: txt " " from rfl] at hp
        exact absurd (List.cons_prefix_cons.mp hp).1 (by decide)
      · intro hin
        exact hnl (hin.subset (by decide))
    have hstrip : pyStrip (txt "##### " ++ r2) = txt "##### " ++ r2 := by
      apply pyStrip_id
      · intro ch hch
        rw [show txt "##### " ++ r2 = '#' :: (txt "#### " ++ r2) from rfl] at hch
        simp only [List.head?_cons, Option.some.injEq] at hch
        subst hch
        decide
      · intro ch hch
        rw [List.getLast?_append] at hch
        cases hr2l : r2.getLast? with
        | none =>
          exact absurd (List.getLast?_eq_none_iff.mp hr2l) hr0
        | some c2 =>
          rw [hr2l] at hch
          simp only [Option.or_some, Option.some.injEq] at hch
          subst hch
          exact hlast c2 hr2l
    have hnn2 : ¬ (txt "\n\n") <:+: txt "##### " ++ r2 := by
      intro hin
      exact hnl (hin.subset (by decide))
    have hpiece : paragraphPiece (txt "##### " ++ r2) =
        some (txt "<p>" ++ (txt "##### " ++ r2) ++ txt "</p>") := by
      unfold paragraphPiece
      rw [hstrip]
      rw [if_neg (by
        intro h0
        have hmem : '#' ∈ txt "##### " ++ r2 :=
          List.mem_append.mpr (Or.inl (by decide))
        rw [h0] at hmem
        simp at hmem)]
      rw [if_neg (by
        rw [show txt "##### " ++ r2 = '#' :: (txt "#### " ++ r2) from rfl]
        rw [show ((txt "<h").isPrefixOf ('#' :: (txt "#### " ++ r2)) ||
            (txt "<block").isPrefixOf ('#' :: (txt "#### " ++ r2)) ||
            (txt "<pre").isPrefixOf ('#' :: (txt "#### " ++ r2)) ||
            (txt "<ul").isPrefixOf ('#' :: (txt "#### " ++ r2)) ||
            (txt "<ol").isPrefixOf ('#' :: (txt "#### " ++ r2))) = false from rfl]
        exact Bool.false_ne_true)]
    have hpar : paragraphStage (txt "##### " ++ r2) =
        txt "<p>" ++ (txt "##### " ++ r2) ++ txt "</p>" := by
      unfold paragraphStage
      rw [splitOnList_of_none ((splitAtFirst_none_iff (by decide)).mpr hnn2)]
      rw [show List.filterMap paragraphPiece [txt "##### " ++ r2] =
          [txt "<p>" ++ (txt "##### " ++ r2) ++ txt "</p>"] from by
        rw [List.filterMap_cons, hpiece]
        rfl]
      exact intercalate_singleton' _ _
    unfold simple_markdown_to_html
    rw [hhead 1 (by decide), hhead 2 (by decide), hhead 3 (by decide),
      hhead 4 (by decide), hbold, hital, hcb, hic, hbqs, hpar]

/-- C6 witness: a concrete two-line document with an h2 heading line, and
the five-hash clauses at concrete inputs. -/
theorem claim_C6_headers_witness :
    (hOpenTag 2 ++ txt "Hello" ++ hCloseTag 2) <:+:
        simple_markdown_to_html
          (List.intercalate ['\n'] [txt "intro", txt "## Hello"]) ∧
    (∀ (j : Nat) (t : Txt), j ∈ [1, 2, 3, 4] →
      headerLine j ('#' :: '#' :: '#' :: '#' :: '#' :: t) =
        '#' :: '#' :: '#' :: '#' :: '#' :: t) ∧
    (∀ r2 : Txt, r2 ≠ [] → (∀ ch ∈ r2, ch ≠ '*' ∧ ch ≠ '`' ∧ ch ≠ '\n') →
      (∀ ch, r2.getLast? = some ch → ¬ pyIsSpace ch) →
      simple_markdown_to_html (txt "##### " ++ r2) =
        txt "<p>" ++ (txt "##### " ++ r2) ++ txt "</p>") :=
  claim_C6_headers [txt "intro", txt "## Hello"] 1 2 (txt "Hello")
    (by decide) (by decide) (by decide) (by decide) (by decide)

theorem splitAtFirst_self {d rest : Txt} (hd : d ≠ []) :
    splitAtFirst d (d ++ rest) = some ([], rest) := by
  obtain ⟨c, dt, rfl⟩ := List.exists_cons_of_ne_nil hd
  have := @splitAtFirst_append c dt [] rest (by simp)
  simpa using this

/-- C8: confirmed.  For every file the Combiner reads: the content appended
comes from the captured group of the leftmost `<body>(.*?)</body>` match
only — the text between the first `<body>` and the first `</body>` after it
(no occurrence of `<body>` starts earlier, and no occurrence of `</body>`
starts inside the captured text) — and when the pattern does not match, the
file is silently skipped: it contributes no section and the loop does not
fail. -/
theorem claim_C8_combiner_first_match (p content : Txt) :
    (extractBody content = none → combineSections (p, content) = []) ∧
    (∀ body, extractBody content = some body →
      combineSections (p, content) =
        [txt "<div id=\"" ++ combinedBaseName p ++ txt "\">",
         containerSub body, txt "</div>",
         txt "<div style=\"page-break-after: always;\"></div>"] ∧
      ∃ pre suf, content = pre ++ txt "<body>" ++ body ++ txt "</body>" ++ suf ∧
        (∀ p₁ p₂, pre = p₁ ++ p₂ → p₂ ≠ [] →
          ¬ (txt "<body>") <+: (p₂ ++ (txt "<body>" ++ (body ++ (txt "</body>" ++ suf))))) ∧
        (∀ b₁ b₂, body = b₁ ++ b₂ → b₂ ≠ [] →
          ¬ (txt "</body>") <+: (b₂ ++ (txt "</body>" ++ suf)))) := by
  constructor
  · intro hn
    unfold combineSections
    rw [hn]
  · intro body hb
    constructor
    · unfold combineSections
      rw [hb]
    · unfold extractBody at hb
      cases hs1 : splitAtFirst (txt "<body>") content with
      | none =>
        rw [hs1] at hb
        exact absurd hb (by simp)
      | some pr =>
        obtain ⟨pre, rest⟩ := pr
        simp only [hs1] at hb
        cases hs2 : splitAtFirst (txt "</body>") rest with
        | none =>
          simp only [hs2] at hb
          exact absurd hb (by simp)
        | some pr2 =>
          obtain ⟨body', suf⟩ := pr2
          simp only [hs2] at hb
          have hbody : body' = body := by simpa using hb
          subst hbody
          refine ⟨pre, suf, ?_, ?_, ?_⟩
          · rw [splitAtFirst_some hs1, splitAtFirst_some hs2]
            simp
          · intro p₁ p₂ hp hne
            have hmin := splitAtFirst_min hs1 p₁ p₂ hp hne
            rw [splitAtFirst_some hs2] at hmin
            intro hcontra
            exact hmin (by simpa [List.append_assoc] using hcontra)
          · intro b₁ b₂ hb' hne
            have hmin := splitAtFirst_min hs2 b₁ b₂ hb' hne
            intro hcontra
            exact hmin (by simpa [List.append_assoc] using hcontra)

/-- C8 witness: a file whose content has markers (first-match extraction)
and a file without markers (silent skip). -/
theorem claim_C8_combiner_first_match_witness :
    (extractBody (txt "no markers here") = none →
      combineSections (txt "a.html", txt "no markers here") = []) ∧
    combineSections (txt "a.html", txt "no markers here") = [] ∧
    (extractBody (txt "x<body>B</body>y") = some (txt "B") →
      combineSections (txt "a.html", txt "x<body>B</body>y") =
        [txt "<div id=\"" ++ combinedBaseName (txt "a.html") ++ txt "\">",
         containerSub (txt "B"), txt "</div>",
         txt "<div style=\"page-break-after: always;\"></div>"]) := by
  refine ⟨(claim_C8_combiner_first_match (txt "a.html") (txt "no markers here")).1, ?_, ?_⟩
  · exact (claim_C8_combiner_first_match (txt "a.html") (txt "no markers here")).1 (by decide)
  · intro hb
    exact ((claim_C8_combiner_first_match (txt "a.html")
      (txt "x<body>B</body>y")).2 (txt "B") hb).1

/-- The ids of the sections actually appended by the Combiner (files whose
content matched the body pattern), in order. -/
def sectionIds (files : List (Txt × Txt)) : List Txt :=
  (files.filter (fun f => (extractBody f.2).isSome)).map
    (fun f => combinedBaseName f.1)

/-- The ids referenced by the TOC entries, in order (one per collected
file). -/
def tocIds (files : List (Txt × Txt)) : List Txt :=
  files.map (fun f => combinedBaseName f.1)

/-- Parse the id attribute out of a produced section opener. -/
def idOfDiv (s : Txt) : Option Txt :=
  match splitAtFirst (txt "<div id=\"") s with
  | none => none
  | some pr =>
    match splitAtFirst ['"'] pr.2 with
    | none => none
    | some pr2 => some pr2.1

/-- Parse the anchor out of a produced TOC entry. -/
def anchorOfToc (s : Txt) : Option Txt :=
  match splitAtFirst (txt "<li><a href=\"#") s with
  | none => none
  | some pr =>
    match splitAtFirst ['"'] pr.2 with
    | none => none
    | some pr2 => some pr2.1

theorem idOfDiv_mk {base : Txt} (hq : '"' ∉ base) :
    idOfDiv (txt "<div id=\"" ++ base ++ txt "\">") = some base := by
  unfold idOfDiv
  rw [List.append_assoc]
  simp only [splitAtFirst_self (show (txt "<div id=\"" : Txt) ≠ [] by decide)]
  have hsp : splitAtFirst ['"'] (base ++ ['"'] ++ ['>']) = some (base, ['>']) :=
    splitAtFirst_append (by simpa using hq)
  rw [show (base ++ txt "\">" : Txt) = base ++ ['"'] ++ ['>'] from
    (List.append_assoc base ['"'] ['>']).symm]
  simp only [hsp]

theorem anchorOfToc_mk {p : Txt} (hq : '"' ∉ combinedBaseName p) :
    anchorOfToc (tocEntry p) = some (combinedBaseName p) := by
  unfold anchorOfToc tocEntry
  rw [List.append_assoc, List.append_assoc, List.append_assoc]
  simp only [splitAtFirst_self (show (txt "<li><a href=\"#" : Txt) ≠ [] by decide)]
  have hsp : splitAtFirst ['"'] (combinedBaseName p ++ ['"'] ++
      ('>' :: (readableName p ++ txt "</a></li>"))) =
      some (combinedBaseName p, '>' :: (readableName p ++ txt "</a></li>")) :=
    splitAtFirst_append (by simpa using hq)
  rw [show (combinedBaseName p ++ (txt "\">" ++ (readableName p ++ txt "</a></li>")) : Txt) =
    combinedBaseName p ++ ['"'] ++ ('>' :: (readableName p ++ txt "</a></li>")) from
    (List.append_assoc (combinedBaseName p) ['"'] ('>' :: (readableName p ++ txt "</a></li>"))).symm]
  simp only [hsp]

/-- C10: confirmed.  Every appended content section opens with a container
div whose id is the base file name of its source file (`.html` stripped);
the TOC entry of that same file links to exactly that id; the section ids
form an order-preserving sublist of the TOC ids (sections appear in the
same relative order as their TOC entries, and every section has a TOC
entry); and the converse fails on a file without a body marker, which keeps
its TOC entry but contributes no section. -/
theorem claim_C10_toc_section_ids (files : List (Txt × Txt))
    (hq : ∀ f ∈ files, '"' ∉ combinedBaseName f.1) :
    (∀ f : Txt × Txt, combineSections f = [] ↔ extractBody f.2 = none) ∧
    (∀ f ∈ files, ∀ body, extractBody f.2 = some body →
      (combineSections f).head? =
        some (txt "<div id=\"" ++ combinedBaseName f.1 ++ txt "\">") ∧
      idOfDiv (txt "<div id=\"" ++ combinedBaseName f.1 ++ txt "\">") =
        some (combinedBaseName f.1) ∧
      anchorOfToc (tocEntry f.1) = some (combinedBaseName f.1)) ∧
    List.Sublist (sectionIds files) (tocIds files) ∧
    (sectionIds [(txt "a.html", txt "x")] = [] ∧
      tocIds [(txt "a.html", txt "x")] = [txt "a"]) := by
  refine ⟨?_, ?_, ?_, by decide, by decide⟩
  · intro f
    cases h : extractBody f.2 with
    | none => simp [combineSections, h]
    | some b => simp [combineSections, h]
  · intro f hf body hb
    refine ⟨by simp [combineSections, hb], idOfDiv_mk (hq f hf), anchorOfToc_mk (hq f hf)⟩
  · exact List.Sublist.map _ (List.filter_sublist files)

/-- C10 witness: one file with a body marker and one without — the second
keeps its TOC entry but has no section. -/
theorem claim_C10_toc_section_ids_witness :
    (∀ f ∈ [(txt "ch_1.html", txt "<body>X</body>"), (txt "ch_2.html", txt "plain")],
      '"' ∉ combinedBaseName f.1) ∧
    List.Sublist
      (sectionIds [(txt "ch_1.html", txt "<body>X</body>"), (txt "ch_2.html", txt "plain")])
      (tocIds [(txt "ch_1.html", txt "<body>X</body>"), (txt "ch_2.html", txt "plain")]) ∧
    anchorOfToc (tocEntry (txt "ch_1.html")) = some (combinedBaseName (txt "ch_1.html")) := by
  have hq : ∀ f ∈ [(txt "ch_1.html", txt "<body>X</body>"), (txt "ch_2.html", txt "plain")],
      '"' ∉ combinedBaseName f.1 := by decide
  have hmain := claim_C10_toc_section_ids
    [(txt "ch_1.html", txt "<body>X</body>"), (txt "ch_2.html", txt "plain")] hq
  refine ⟨hq, hmain.2.2.1, ?_⟩
  exact ((hmain.2.1 (txt "ch_1.html", txt "<body>X</body>") (by decide) (txt "X")
    (by decide)).2.2)
